import Mathlib

/-!
Verification development for the `phi-anonymizer` backend
(`src/backend/app`): a shallow embedding in Lean 4 of

* `services/llm_service.py` — the tolerant regex parser
  `parse_llm_response`, the provider factory `get_provider`, the
  `OllamaProvider.anonymize` HTTP handling, and the orchestrator
  `anonymize_text`;
* `services/document_parser.py` — `parse_word`, `detect_needs_ocr`,
  and the OCR/native path selection of `parse_pdf`.

The Python regular expressions are embedded through a small
backtracking matcher (`mt`) whose alternation, greedy/lazy
quantifier, lookahead and capture-group semantics follow the `re`
module (leftmost search position, branch order, greedy prefers
consuming, lazy prefers stopping).  Every quantifier occurring in
the three patterns of `parse_llm_response` ranges over a single
character class, which the token syntax `Tok` reflects.  Recursion
is driven by an explicit fuel; the fuel bounds only the *depth* of
one backtracking chain, and every chain shortens the pair
(input length, remaining token size), so the generous fuel
`bigFuel` used by the wrappers is always sufficient.
-/

namespace PhiAnonymizer

/-- Python's whitespace set: the characters matched by `\s` in an
`re` pattern over `str`, which coincides with the set stripped by
`str.strip()` (both use `Py_UNICODE_ISSPACE`). -/
def pySpace (c : Char) : Bool :=
  let v := c.toNat
  (9 ≤ v && v ≤ 13) || (28 ≤ v && v ≤ 31) || v == 32 || v == 0x85 ||
    v == 0xa0 || v == 0x1680 || (0x2000 ≤ v && v ≤ 0x200a) ||
    v == 0x2028 || v == 0x2029 || v == 0x202f || v == 0x205f || v == 0x3000

/-- The character class `[\s:—–-]` used after the block markers
(whitespace, colon, em dash, en dash, hyphen). -/
def sepClass (c : Char) : Bool :=
  pySpace c || c == ':' || c == '—' || c == '–' || c == '-'

/-- The character class `[-\s]` of `DE[-\s]*IDENTIFIED`. -/
def dashSpace (c : Char) : Bool :=
  c == '-' || pySpace c

/-- The character class `[-•]` of the optional entry bullet. -/
def bulletCls (c : Char) : Bool :=
  c == '-' || c == '•'

/-- The class `[\s\S]` (and `.` under `re.DOTALL`): any character. -/
def anyCh (_ : Char) : Bool := true

/-- The class `\n` (match a literal newline, used for `\n+`). -/
def isNl (c : Char) : Bool := c == '\n'

/-- Case-insensitive character comparison, as all three patterns of
`parse_llm_response` are compiled with `re.IGNORECASE` (the pattern
literals are ASCII, so ASCII lowercasing is adequate). -/
def ciEq (a b : Char) : Bool := a.toLower == b.toLower

/-- Strip a case-insensitive literal prefix, returning the rest. -/
def stripCI : List Char → List Char → Option (List Char)
  | [], s => some s
  | _ :: _, [] => none
  | p :: ps, c :: s => if ciEq p c then stripCI ps s else none

/-- Python `str.strip()`: drop leading and trailing whitespace. -/
def pyStrip (s : List Char) : List Char :=
  ((s.dropWhile pySpace).reverse.dropWhile pySpace).reverse

/-- One step of Python `str.replace(pat, rep)`: scan left to right,
replacing non-overlapping occurrences; `fuel` is the input length. -/
def pyReplaceGo (pat rep : List Char) : Nat → List Char → List Char
  | 0, s => s
  | _ + 1, [] => []
  | fuel + 1, c :: s =>
    if pat ≠ [] && pat.isPrefixOf (c :: s) then
      rep ++ pyReplaceGo pat rep fuel ((c :: s).drop pat.length)
    else
      c :: pyReplaceGo pat rep fuel s

/-- Python `str.replace`. -/
def pyReplace (pat rep s : List Char) : List Char :=
  pyReplaceGo pat rep s.length s

/-- `response.replace('**', '').replace('*', '')` from
`parse_llm_response` (llm_service.py line 334). -/
def cleanData (s : List Char) : List Char :=
  pyReplace "*".data [] (pyReplace "**".data [] s)

/-- Tokens of the embedded regular expressions.  Every quantifier in
the three source patterns ranges over a one-character class, so
quantified tokens carry the class predicate directly.  All capture
groups in the source patterns are lazy quantifiers, so captures are
attached to the lazy tokens (`starL` also carries the reversed list
of characters consumed so far). -/
inductive Tok where
  | lit : List Char → Tok
  | opt : (Char → Bool) → Tok
  | starG : (Char → Bool) → Tok
  | plusG : (Char → Bool) → Tok
  | starL : (Char → Bool) → Nat → List Char → Tok
  | plusL : (Char → Bool) → Nat → Tok
  | alt : List (List Tok) → Tok
  | look : List (List Tok) → Tok
  | endA : Tok

/-- Captures: association list from group number to captured text. -/
abbrev Caps := List (Nat × List Char)

/-- The backtracking matcher.  `mt fuel toks s` returns the
highest-priority way of matching the token sequence `toks` against a
prefix of `s`, with the captures and the remaining suffix, following
Python `re` preference order: alternation tries branches left to
right, greedy quantifiers prefer consuming, lazy quantifiers prefer
stopping, a lookahead consumes nothing.  `none` means no match (or
fuel exhaustion, which `bigFuel` rules out). -/
def mt : Nat → List Tok → List Char → Option (Caps × List Char)
  | 0, _, _ => none
  | _ + 1, [], s => some ([], s)
  | fuel + 1, Tok.lit p :: r, s =>
    match stripCI p s with
    | some s' => mt fuel r s'
    | none => none
  | fuel + 1, Tok.opt p :: r, s =>
    (match s with
     | c :: s' => if p c then mt fuel r s' else none
     | [] => none) <|> mt fuel r s
  | fuel + 1, Tok.starG p :: r, s =>
    (match s with
     | c :: s' => if p c then mt fuel (Tok.starG p :: r) s' else none
     | [] => none) <|> mt fuel r s
  | fuel + 1, Tok.plusG p :: r, s =>
    (match s with
     | c :: s' => if p c then mt fuel (Tok.starG p :: r) s' else none
     | [] => none)
  | fuel + 1, Tok.starL p n acc :: r, s =>
    match mt fuel r s with
    | some (caps, rem) => some ((n, acc.reverse) :: caps, rem)
    | none =>
      match s with
      | c :: s' => if p c then mt fuel (Tok.starL p n (c :: acc) :: r) s' else none
      | [] => none
  | fuel + 1, Tok.plusL p n :: r, s =>
    (match s with
     | c :: s' => if p c then mt fuel (Tok.starL p n [c] :: r) s' else none
     | [] => none)
  | fuel + 1, Tok.alt bs :: r, s =>
    bs.foldr (fun b acc => mt fuel (b ++ r) s <|> acc) none
  | fuel + 1, Tok.look bs :: r, s =>
    match bs.foldr (fun b acc => mt fuel b s <|> acc) none with
    | some _ => mt fuel r s
    | none => none
  | fuel + 1, Tok.endA :: r, s =>
    match s with
    | [] => mt fuel r []
    | _ :: _ => none

/-- Ample fuel: each backtracking chain of `mt` strictly shortens
(input length, token size), and the token sizes of the fixed source
patterns are far below 400. -/
def bigFuel (s : List Char) : Nat := s.length + 400

/-- `re.search`: try to match at each position from the left;
returns (text before the match, captures, text after the match). -/
def searchAcc (fuel : Nat) (toks : List Tok) :
    List Char → List Char → Option (List Char × Caps × List Char)
  | acc, [] =>
    match mt fuel toks [] with
    | some (caps, rem) => some (acc.reverse, caps, rem)
    | none => none
  | acc, c :: s' =>
    match mt fuel toks (c :: s') with
    | some (caps, rem) => some (acc.reverse, caps, rem)
    | none => searchAcc fuel toks (c :: acc) s'

/-- `re.split` on a groupless pattern: pieces between successive
non-overlapping matches.  The patterns used always consume at least
one character, so the zero-width guard never fires. -/
def splitGo (fuel : Nat) (toks : List Tok) : Nat → List Char → List (List Char)
  | 0, s => [s]
  | iter + 1, s =>
    match searchAcc fuel toks [] s with
    | none => [s]
    | some (pre, _, rem) =>
      if rem.length + pre.length < s.length then pre :: splitGo fuel toks iter rem
      else [s]

/-- `re.split` wrapper. -/
def pySplit (toks : List Tok) (s : List Char) : List (List Char) :=
  splitGo (bigFuel s) toks (s.length + 1) s

/-- `re.finditer`: captures of successive non-overlapping matches. -/
def findAllGo (fuel : Nat) (toks : List Tok) : Nat → List Char → List Caps
  | 0, _ => []
  | iter + 1, s =>
    match searchAcc fuel toks [] s with
    | none => []
    | some (pre, caps, rem) =>
      if rem.length + pre.length < s.length then caps :: findAllGo fuel toks iter rem
      else [caps]

/-- `re.finditer` wrapper. -/
def findAll (toks : List Tok) (s : List Char) : List Caps :=
  findAllGo (bigFuel s) toks (s.length + 1) s

/-- `BLOCK\s*2`, first branch of the document marker. -/
def b2a : List Tok := [Tok.lit "BLOCK".data, Tok.starG pySpace, Tok.lit "2".data]

/-- `DE[-\s]*IDENTIFIED\s+DOCUMENT`, second branch of the marker. -/
def b2b : List Tok :=
  [Tok.lit "DE".data, Tok.starG dashSpace, Tok.lit "IDENTIFIED".data,
   Tok.plusG pySpace, Tok.lit "DOCUMENT".data]

/-- The document marker alternation `(?:BLOCK\s*2|DE[-\s]*IDENTIFIED\s+DOCUMENT)`. -/
def markerB2 : List (List Tok) := [b2a, b2b]

/-- llm_service.py line 338, `doc_pattern`:
`(?:BLOCK\s*2|DE[-\s]*IDENTIFIED\s+DOCUMENT)[\s:—–-]*\n+([\s\S]+?)(?:\n\n---|\n\nNote:|\Z)`. -/
def docPattern : List Tok :=
  [Tok.alt markerB2, Tok.starG sepClass, Tok.plusG isNl, Tok.plusL anyCh 1,
   Tok.alt [[Tok.lit "\n\n---".data], [Tok.lit "\n\nNote:".data], [Tok.endA]]]

/-- llm_service.py line 347, the split pattern
`(?:BLOCK\s*2|DE[-\s]*IDENTIFIED\s+DOCUMENT)[\s:—–-]*\n+`. -/
def splitPattern : List Tok :=
  [Tok.alt markerB2, Tok.starG sepClass, Tok.plusG isNl]

/-- `BLOCK\s*1`. -/
def b1a : List Tok := [Tok.lit "BLOCK".data, Tok.starG pySpace, Tok.lit "1".data]

/-- `PHI\s+REPLACEMENT\s+LOG`. -/
def b1b : List Tok :=
  [Tok.lit "PHI".data, Tok.plusG pySpace, Tok.lit "REPLACEMENT".data,
   Tok.plusG pySpace, Tok.lit "LOG".data]

/-- llm_service.py line 355, `log_pattern`:
`(?:BLOCK\s*1|PHI\s+REPLACEMENT\s+LOG)[\s:—–-]*\n+([\s\S]*?)(?=BLOCK\s*2|DE[-\s]*IDENTIFIED\s+DOCUMENT)`. -/
def logPattern : List Tok :=
  [Tok.alt [b1a, b1b], Tok.starG sepClass, Tok.plusG isNl,
   Tok.starL anyCh 1 [], Tok.look markerB2]

/-- llm_service.py line 364, `entry_pattern` (compiled with
`re.DOTALL`, so `.` is `anyCh`):
`[-•]?\s*Category:\s*(.+?)\s+Original\s+token:\s*(.+?)\s+Replacement:\s*(.+?)\s+Consistency\s+key:\s*(.+?)(?=\s*[-•]?\s*Category:|\Z)`. -/
def entryPattern : List Tok :=
  [Tok.opt bulletCls, Tok.starG pySpace, Tok.lit "Category:".data,
   Tok.starG pySpace, Tok.plusL anyCh 1,
   Tok.plusG pySpace, Tok.lit "Original".data, Tok.plusG pySpace, Tok.lit "token:".data,
   Tok.starG pySpace, Tok.plusL anyCh 2,
   Tok.plusG pySpace, Tok.lit "Replacement:".data,
   Tok.starG pySpace, Tok.plusL anyCh 3,
   Tok.plusG pySpace, Tok.lit "Consistency".data, Tok.plusG pySpace, Tok.lit "key:".data,
   Tok.starG pySpace, Tok.plusL anyCh 4,
   Tok.look [[Tok.starG pySpace, Tok.opt bulletCls, Tok.starG pySpace, Tok.lit "Category:".data],
             [Tok.endA]]]

/-- The tokens of `entry_pattern` after the optional bullet and the
leading whitespace (used to share the match chain between a fresh
start and a start behind a consumed newline). -/
def entryCore : List Tok :=
  [Tok.lit "Category:".data,
   Tok.starG pySpace, Tok.plusL anyCh 1,
   Tok.plusG pySpace, Tok.lit "Original".data, Tok.plusG pySpace, Tok.lit "token:".data,
   Tok.starG pySpace, Tok.plusL anyCh 2,
   Tok.plusG pySpace, Tok.lit "Replacement:".data,
   Tok.starG pySpace, Tok.plusL anyCh 3,
   Tok.plusG pySpace, Tok.lit "Consistency".data, Tok.plusG pySpace, Tok.lit "key:".data,
   Tok.starG pySpace, Tok.plusL anyCh 4,
   Tok.look [[Tok.starG pySpace, Tok.opt bulletCls, Tok.starG pySpace, Tok.lit "Category:".data],
             [Tok.endA]]]

/-- Structural test for a match of the marker branch `BLOCK\s*2`
starting at the head of `s`: a case-insensitive `BLOCK`, some
whitespace, then a `2`. -/
def hasB2At (s : List Char) : Bool :=
  match stripCI "BLOCK".data s with
  | some s₁ =>
    (List.range (s₁.length + 1)).any (fun n =>
      ((s₁.take n).all pySpace) && (stripCI "2".data (s₁.drop n)).isSome)
  | none => false

/-- Structural test for a match of the marker branch
`DE[-\s]*IDENTIFIED\s+DOCUMENT` starting at the head of `s`. -/
def hasDEAt (s : List Char) : Bool :=
  match stripCI "DE".data s with
  | some s₁ =>
    (List.range (s₁.length + 1)).any (fun n =>
      ((s₁.take n).all dashSpace) &&
        (match stripCI "IDENTIFIED".data (s₁.drop n) with
         | some s₂ =>
           (List.range (s₂.length + 1)).any (fun m =>
             (decide (1 ≤ m)) && ((s₂.take m).all pySpace) &&
               (stripCI "DOCUMENT".data (s₂.drop m)).isSome)
         | none => false))
  | none => false

/-- No position of `s` begins a BLOCK 2 / DE-IDENTIFIED DOCUMENT
marker: the structural form of "the parser finds no recognizable
document marker". -/
def noB2Marker (s : List Char) : Bool :=
  (List.range (s.length + 1)).all
    (fun i => !(hasB2At (s.drop i)) && !(hasDEAt (s.drop i)))

/-- models/anonymize.py `PHIReplacement`. -/
structure PHIReplacement where
  category : String
  original_token : String
  replacement : String
  consistency_key : String
deriving Repr, DecidableEq

/-- Captured text of group `n` (all groups of the source patterns lie
on the mandatory path of a successful match, so a matched pattern
always binds them). -/
def capGet (caps : Caps) (n : Nat) : List Char :=
  match caps.find? (fun x => x.1 == n) with
  | some x => x.2
  | none => []

/-- Build one `PHIReplacement` from the four stripped groups of an
entry match (llm_service.py lines 366-373). -/
def mkEntry (caps : Caps) : PHIReplacement :=
  { category := String.mk (pyStrip (capGet caps 1))
    original_token := String.mk (pyStrip (capGet caps 2))
    replacement := String.mk (pyStrip (capGet caps 3))
    consistency_key := String.mk (pyStrip (capGet caps 4)) }

/-- llm_service.py lines 320-375, `parse_llm_response`: strip
emphasis markup, extract the de-identified document (with the split
fallback and the final fallback to the whole raw response), then
extract the replacement-log entries. -/
def parse_llm_response (response : String) : List PHIReplacement × String :=
  let clean := cleanData response.data
  let anonymized : List Char :=
    match searchAcc (bigFuel clean) docPattern [] clean with
    | some (_, caps, _) => pyStrip (capGet caps 1)
    | none =>
      let parts := pySplit splitPattern clean
      if 1 < parts.length then pyStrip (parts.getLastD [])
      else response.data
  let log : List PHIReplacement :=
    match searchAcc (bigFuel clean) logPattern [] clean with
    | some (_, caps, _) => (findAll entryPattern (capGet caps 1)).map mkEntry
    | none => []
  (log, String.mk anonymized)

/-- Case-insensitive substring test: `w` matches (via `stripCI`) at
some position of `s`. -/
def ciOccurs (w s : List Char) : Bool :=
  (List.range (s.length + 1)).any fun i => (stripCI w (s.drop i)).isSome

/-- One synthetic log entry in the prompt's four-field schema,
rendered the way the spec's round-trip scenario writes it. -/
def renderEntry (e : PHIReplacement) : List Char :=
  "Category: ".data ++ e.category.data ++
    " Original token: ".data ++ e.original_token.data ++
    " Replacement: ".data ++ e.replacement.data ++
    " Consistency key: ".data ++ e.consistency_key.data ++ ['\n']

/-- The concatenated rendering of a list of log entries. -/
def entriesText : List PHIReplacement → List Char
  | [] => []
  | e :: es => renderEntry e ++ entriesText es

/-- A synthetic well-formed model response: BLOCK 1 header, the log
entries, BLOCK 2 header, then the document body (this format is
exactly the spec's round-trip scenario). -/
def renderResponse (es : List PHIReplacement) (body : List Char) : String :=
  String.mk ("BLOCK 1 - PHI REPLACEMENT LOG\n".data ++ entriesText es ++
    "BLOCK 2 - DE-IDENTIFIED DOCUMENT\n".data ++ body)

/-- A well-formed log-entry field: non-empty; its only whitespace is
plain blanks and it neither starts nor ends with whitespace; it does
not end with a bullet/dash; it contains no emphasis asterisk (which
cleaning would remove); and it contains no case-insensitive
occurrence of a marker word or field label, so that no marker or
entry boundary can be recognised inside it. -/
def wfField (s : List Char) : Bool :=
  !s.isEmpty &&
  (s.all fun c => (!(pySpace c) || c == ' ') && c != '*') &&
  (s.head?.all fun c => !(pySpace c)) &&
  (s.getLast?.all fun c => !(pySpace c) && !(bulletCls c)) &&
  (["BLOCK", "DE", "Category:", "Original", "Replacement:", "Consistency"].all
    fun w => !(ciOccurs w.data s))

/-- All four fields of an entry are well formed. -/
def wfEntry (e : PHIReplacement) : Bool :=
  wfField e.category.data && wfField e.original_token.data &&
    wfField e.replacement.data && wfField e.consistency_key.data

/-- A well-formed document body: non-empty, no emphasis asterisk, a
first character outside the marker-separator class `[\s:—–-]`, no
trailing whitespace, and no occurrence of the parser's trailing
separators (`\n\n---`, `\n\nNote:`). -/
def wfBody (b : List Char) : Bool :=
  !b.isEmpty &&
  (b.all fun c => c != '*') &&
  (b.head?.all fun c => !(sepClass c)) &&
  (b.getLast?.all fun c => !(pySpace c)) &&
  !(ciOccurs "\n\n---".data b) && !(ciOccurs "\n\nNote:".data b)

/-! Extractor models (`services/document_parser.py`). -/

/-- A `.docx` document as seen by `parse_word`: the paragraph texts
in document order, and the tables as lists of rows of cell texts
(python-docx objects abstracted to their text contents). -/
structure WordDocument where
  paragraphs : List String
  tables : List (List (List String))
deriving Repr, DecidableEq

/-- document_parser.py lines 10-36, `parse_word`: keep paragraphs
whose stripped text is non-empty (unstripped), then append each
table row as the `" | "`-join of the stripped cell texts, skipping
rows whose joined text strips to empty; join everything with
newlines. -/
def parse_word (doc : WordDocument) : String :=
  let paraParts := doc.paragraphs.filter (fun p => pyStrip p.data ≠ [])
  let rowText := fun (row : List String) =>
    " | ".intercalate (row.map (fun cell => String.mk (pyStrip cell.data)))
  let rowParts :=
    (doc.tables.map (fun t => (t.map rowText).filter (fun rt => pyStrip rt.data ≠ []))).flatten
  "\n".intercalate (paraParts ++ rowParts)

/-- The claim's literal reading of the word extractor: concatenate
the non-empty paragraph texts in document order, then each table's
rows rendered as pipe-joined cell text in table order, after all
paragraphs (newline-joined, no stripping, no row filtering). -/
def parse_word_claim (doc : WordDocument) : String :=
  "\n".intercalate
    (doc.paragraphs.filter (fun p => p ≠ "") ++
      (doc.tables.map (fun t => t.map (fun row => " | ".intercalate row))).flatten)

/-- The amended reading of the word extractor: paragraphs with
non-blank text (kept unstripped) in document order, then each
table's rows rendered as pipe-joins of the whitespace-stripped cell
texts, keeping only rows whose rendering is non-blank, in table
order after all paragraphs, all joined by newlines. -/
def parse_word_amended (doc : WordDocument) : String :=
  "\n".intercalate
    (doc.paragraphs.filter (fun p => String.mk (pyStrip p.data) ≠ "") ++
      (doc.tables.map (fun t =>
        (t.map (fun row => " | ".intercalate (row.map (fun c => String.mk (pyStrip c.data))))).filter
          (fun rt => String.mk (pyStrip rt.data) ≠ ""))).flatten)

/-- document_parser.py lines 39-66, `detect_needs_ocr`: the fitz
document abstracted to the list of its pages' `get_text()` strings.
Inspect the first `min 3 pageCount` pages, sum the stripped text
lengths, and compare the average per inspected page (a true
division, guarded to 0 when no page is inspected) with the
threshold 100.  For the integer totals and denominators 1-3
produced here, Python float division compares to 100 exactly as
rational division does. -/
def detect_needs_ocr (pages : List String) : Bool :=
  let pagesToCheck := min 3 pages.length
  let totalTextLength := (((pages.take pagesToCheck).map (fun t => (pyStrip t.data).length)).sum : Nat)
  let avgTextPerPage : ℚ :=
    if 0 < pagesToCheck then (totalTextLength : ℚ) / (pagesToCheck : ℚ) else 0
  decide (avgTextPerPage < 100)

/-- document_parser.py line 143: the `used_ocr` path selector of
`parse_pdf` (`needs_ocr = force_ocr or detect_needs_ocr(file_path)`);
`true` means the OCR extraction path runs, `false` the native one. -/
def parse_pdf_used_ocr (pages : List String) (force_ocr : Bool) : Bool :=
  force_ocr || detect_needs_ocr pages

/-- The average native-text length per inspected page, as the claim
describes it: the mean stripped-text length over the first
`min 3 pageCount` pages (0 when there are no pages). -/
def avgNativeLen (pages : List String) : ℚ :=
  let n := min 3 pages.length
  if 0 < n then
    ((((pages.take n).map (fun t => (pyStrip t.data).length)).sum : ℚ) / (n : ℚ))
  else 0

/-! Provider models (`services/llm_service.py`). -/

/-- core/config.py `Settings`, restricted to the fields read by
`get_provider`.  An empty string is Python-falsy, which is how the
source tests "not configured". -/
structure Settings where
  ANTHROPIC_API_KEY : String := ""
  OPENAI_API_KEY : String := ""
  OLLAMA_BASE_URL : String := "http://localhost:11434"
  OLLAMA_MODEL : String := "llama2"
deriving Repr, DecidableEq

/-- The three provider variants constructed by `get_provider`. -/
inductive Provider where
  | anthropic (api_key : String)
  | openai (api_key : String)
  | ollama (base_url : String) (model_name : String)
deriving Repr, DecidableEq

/-- Python `str.lower()` on the provider name (characterwise ASCII
lowercasing; provider names are ASCII). -/
def pyLower (s : String) : String :=
  String.mk (s.data.map Char.toLower)

/-- llm_service.py lines 378-407, `get_provider`: lowercase the
name, dispatch on it, fail with the source's `ValueError` messages
(the spec's `ConfigurationError`) for missing keys or unknown
names.  `"local"` is an alias of `"ollama"`. -/
def get_provider (st : Settings) (provider_name : String) : Except String Provider :=
  let name := pyLower provider_name
  if name = "anthropic" then
    if st.ANTHROPIC_API_KEY = "" then Except.error "Anthropic API key not configured"
    else Except.ok (Provider.anthropic st.ANTHROPIC_API_KEY)
  else if name = "openai" then
    if st.OPENAI_API_KEY = "" then Except.error "OpenAI API key not configured"
    else Except.ok (Provider.openai st.OPENAI_API_KEY)
  else if name = "ollama" ∨ name = "local" then
    Except.ok (Provider.ollama st.OLLAMA_BASE_URL st.OLLAMA_MODEL)
  else Except.error ("Invalid provider: " ++ name)

/-- The HTTP answer of the local Ollama endpoint, abstracted to the
parts `OllamaProvider.anonymize` reads: the status code, the raw
body text, and the `"response"` field of the parsed JSON body
(`result.get("response", "")`, defaulting to the empty string). -/
structure OllamaHttpResponse where
  status_code : Nat
  text : String
  response_field : String
deriving Repr, DecidableEq

/-- llm_service.py lines 300-317, the response handling of
`OllamaProvider.anonymize`: a status other than 200 raises
`ValueError(f"Ollama API error: {status_code} - {text}")` (the
spec's `ProviderError`), otherwise the `"response"` JSON field is
returned together with the provider id `"ollama"`. -/
def ollama_anonymize (resp : OllamaHttpResponse) : Except String (String × String) :=
  if resp.status_code ≠ 200 then
    Except.error ("Ollama API error: " ++ toString resp.status_code ++ " - " ++ resp.text)
  else
    Except.ok (resp.response_field, "ollama")

/-- models/anonymize.py `AnonymizationResult`, with the float
`processing_time_seconds` modelled as a rational. -/
structure AnonymizationResult where
  replacement_log : List PHIReplacement
  anonymized_text : String
  provider_used : String
  processing_time_seconds : ℚ
  original_text : Option String := none
deriving Repr, DecidableEq

/-- llm_service.py lines 410-441, `anonymize_text`: select the
provider, call it (the network call abstracted as the oracle
`callProvider`, returning the raw response and the provider id the
variant reports), parse the response, and assemble the result with
the measured elapsed time (abstracted as `elapsed`) and the original
input text. -/
def anonymize_text (st : Settings) (text : String) (provider_name : String)
    (callProvider : Provider → String → String × String) (elapsed : ℚ) :
    Except String AnonymizationResult :=
  match get_provider st provider_name with
  | Except.error e => Except.error e
  | Except.ok provider =>
    let (raw_response, used_provider) := callProvider provider text
    let (replacement_log, anonymized) := parse_llm_response raw_response
    Except.ok
      { replacement_log := replacement_log
        anonymized_text := anonymized
        provider_used := used_provider
        processing_time_seconds := elapsed
        original_text := some text }

/-! Generic lemmas about the matcher: one-step unfolding equations
specialised to the head constructor of the input, and inversion
principles extracting structural information from a successful
match. -/

theorem isSome_orElse {α : Type} (a b : Option α) :
    (a <|> b).isSome = (a.isSome || b.isSome) := by
  cases a <;> rfl

theorem foldr_orElse_isSome {α β : Type} (G : α → Option β) (bs : List α) :
    ((bs.foldr (fun b acc => G b <|> acc) none).isSome = true) ↔
      ∃ b ∈ bs, (G b).isSome = true := by
  induction bs with
  | nil => simp
  | cons hd tl ih =>
    simp only [List.foldr_cons, isSome_orElse, Bool.or_eq_true, ih, List.mem_cons]
    constructor
    · rintro (h | ⟨b, hb, h⟩)
      · exact ⟨hd, Or.inl rfl, h⟩
      · exact ⟨b, Or.inr hb, h⟩
    · rintro ⟨b, hb | hb, h⟩
      · subst hb; exact Or.inl h
      · exact Or.inr ⟨b, hb, h⟩

theorem mt_zero (toks : List Tok) (s : List Char) : mt 0 toks s = none := rfl

theorem mt_nil (f : Nat) (s : List Char) : mt (f + 1) [] s = some ([], s) := rfl

theorem mt_lit (f : Nat) (p : List Char) (r : List Tok) (s : List Char) :
    mt (f + 1) (Tok.lit p :: r) s =
      (match stripCI p s with
       | some s' => mt f r s'
       | none => none) := rfl

theorem mt_opt_cons (f : Nat) (p : Char → Bool) (r : List Tok) (c : Char) (s : List Char) :
    mt (f + 1) (Tok.opt p :: r) (c :: s) =
      ((if p c then mt f r s else none) <|> mt f r (c :: s)) := rfl

theorem mt_opt_nil (f : Nat) (p : Char → Bool) (r : List Tok) :
    mt (f + 1) (Tok.opt p :: r) [] = mt f r [] := rfl

theorem mt_starG_cons (f : Nat) (p : Char → Bool) (r : List Tok) (c : Char) (s : List Char) :
    mt (f + 1) (Tok.starG p :: r) (c :: s) =
      ((if p c then mt f (Tok.starG p :: r) s else none) <|> mt f r (c :: s)) := rfl

theorem mt_starG_nil (f : Nat) (p : Char → Bool) (r : List Tok) :
    mt (f + 1) (Tok.starG p :: r) [] = mt f r [] := rfl

theorem mt_plusG_cons (f : Nat) (p : Char → Bool) (r : List Tok) (c : Char) (s : List Char) :
    mt (f + 1) (Tok.plusG p :: r) (c :: s) =
      (if p c then mt f (Tok.starG p :: r) s else none) := rfl

theorem mt_plusG_nil (f : Nat) (p : Char → Bool) (r : List Tok) :
    mt (f + 1) (Tok.plusG p :: r) [] = none := rfl

theorem mt_starL_cons (f : Nat) (p : Char → Bool) (n : Nat) (acc : List Char)
    (r : List Tok) (c : Char) (s : List Char) :
    mt (f + 1) (Tok.starL p n acc :: r) (c :: s) =
      (match mt f r (c :: s) with
       | some (caps, rem) => some ((n, acc.reverse) :: caps, rem)
       | none => if p c then mt f (Tok.starL p n (c :: acc) :: r) s else none) := rfl

theorem mt_starL_nil (f : Nat) (p : Char → Bool) (n : Nat) (acc : List Char)
    (r : List Tok) :
    mt (f + 1) (Tok.starL p n acc :: r) [] =
      (match mt f r [] with
       | some (caps, rem) => some ((n, acc.reverse) :: caps, rem)
       | none => none) := rfl

theorem mt_plusL_cons (f : Nat) (p : Char → Bool) (n : Nat) (r : List Tok)
    (c : Char) (s : List Char) :
    mt (f + 1) (Tok.plusL p n :: r) (c :: s) =
      (if p c then mt f (Tok.starL p n [c] :: r) s else none) := rfl

theorem mt_plusL_nil (f : Nat) (p : Char → Bool) (n : Nat) (r : List Tok) :
    mt (f + 1) (Tok.plusL p n :: r) [] = none := rfl

theorem mt_alt (f : Nat) (bs : List (List Tok)) (r : List Tok) (s : List Char) :
    mt (f + 1) (Tok.alt bs :: r) s =
      bs.foldr (fun b acc => mt f (b ++ r) s <|> acc) none := rfl

theorem mt_look (f : Nat) (bs : List (List Tok)) (r : List Tok) (s : List Char) :
    mt (f + 1) (Tok.look bs :: r) s =
      (match bs.foldr (fun b acc => mt f b s <|> acc) none with
       | some _ => mt f r s
       | none => none) := rfl

theorem mt_endA_cons (f : Nat) (r : List Tok) (c : Char) (s : List Char) :
    mt (f + 1) (Tok.endA :: r) (c :: s) = none := rfl

theorem mt_endA_nil (f : Nat) (r : List Tok) :
    mt (f + 1) (Tok.endA :: r) [] = mt f r [] := rfl

theorem searchAcc_nil (f : Nat) (toks : List Tok) (acc : List Char) :
    searchAcc f toks acc [] =
      (match mt f toks [] with
       | some (caps, rem) => some (acc.reverse, caps, rem)
       | none => none) := rfl

theorem searchAcc_cons (f : Nat) (toks : List Tok) (acc : List Char)
    (c : Char) (s : List Char) :
    searchAcc f toks acc (c :: s) =
      (match mt f toks (c :: s) with
       | some (caps, rem) => some (acc.reverse, caps, rem)
       | none => searchAcc f toks (c :: acc) s) := rfl

theorem stripCI_suffix : ∀ (p s s' : List Char), stripCI p s = some s' → s' <:+ s := by
  intro p
  induction p with
  | nil =>
    intro s s' h
    simp only [stripCI, Option.some.injEq] at h
    subst h
    exact List.suffix_refl s
  | cons c p ih =>
    intro s s' h
    cases s with
    | nil => simp [stripCI] at h
    | cons d s₀ =>
      simp only [stripCI] at h
      by_cases hc : ciEq c d = true
      · rw [if_pos hc] at h
        exact (ih s₀ s' h).trans (List.suffix_cons d s₀)
      · rw [if_neg hc] at h
        cases h

theorem mt_lit_inv (f : Nat) (p : List Char) (r : List Tok) (s : List Char)
    (h : (mt f (Tok.lit p :: r) s).isSome = true) :
    ∃ s' f', stripCI p s = some s' ∧ f' < f ∧ (mt f' r s').isSome = true := by
  cases f with
  | zero => simp [mt_zero] at h
  | succ g =>
    rw [mt_lit] at h
    cases hst : stripCI p s with
    | none => simp only [hst] at h; cases h
    | some s₁ =>
      simp only [hst] at h
      exact ⟨s₁, g, rfl, Nat.lt_succ_self g, h⟩

theorem mt_starG_inv : ∀ (f : Nat) (p : Char → Bool) (r : List Tok) (s : List Char),
    (mt f (Tok.starG p :: r) s).isSome = true →
      ∃ n f', ((s.take n).all p = true) ∧ f' < f ∧ (mt f' r (s.drop n)).isSome = true := by
  intro f
  induction f with
  | zero => intro p r s h; simp [mt_zero] at h
  | succ g ih =>
    intro p r s h
    cases s with
    | nil =>
      rw [mt_starG_nil] at h
      exact ⟨0, g, by simp, Nat.lt_succ_self g, by simpa using h⟩
    | cons c s₀ =>
      rw [mt_starG_cons, isSome_orElse, Bool.or_eq_true] at h
      rcases h with h | h
      · by_cases hc : p c = true
        · rw [if_pos hc] at h
          obtain ⟨n, f', hall, hf, hmt⟩ := ih p r s₀ h
          refine ⟨n + 1, f', ?_, Nat.lt_succ_of_lt hf, ?_⟩
          · simp [List.take_succ_cons, List.all_cons, hc, hall]
          · simpa [List.drop_succ_cons] using hmt
        · rw [if_neg hc] at h; simp at h
      · exact ⟨0, g, by simp, Nat.lt_succ_self g, by simpa using h⟩

theorem mt_plusG_inv (f : Nat) (p : Char → Bool) (r : List Tok) (s : List Char)
    (h : (mt f (Tok.plusG p :: r) s).isSome = true) :
    ∃ n f', 1 ≤ n ∧ ((s.take n).all p = true) ∧ f' < f ∧
      (mt f' r (s.drop n)).isSome = true := by
  cases f with
  | zero => simp [mt_zero] at h
  | succ g =>
    cases s with
    | nil => rw [mt_plusG_nil] at h; cases h
    | cons c s₀ =>
      rw [mt_plusG_cons] at h
      by_cases hc : p c = true
      · rw [if_pos hc] at h
        obtain ⟨n, f', hall, hf, hmt⟩ := mt_starG_inv g p r s₀ h
        refine ⟨n + 1, f', Nat.succ_le_succ (Nat.zero_le n), ?_, Nat.lt_succ_of_lt hf, ?_⟩
        · simp [List.take_succ_cons, List.all_cons, hc, hall]
        · simpa [List.drop_succ_cons] using hmt
      · rw [if_neg hc] at h; simp at h

theorem mt_take_isSome : ∀ (f : Nat) (xs ys : List Tok) (s : List Char),
    (mt f (xs ++ ys) s).isSome = true → (mt f xs s).isSome = true := by
  intro f
  induction f with
  | zero => intro xs ys s h; simp [mt_zero] at h
  | succ g ih =>
    intro xs ys s h
    cases xs with
    | nil => rw [mt_nil]; rfl
    | cons t xs' =>
      cases t with
      | lit p =>
        rw [List.cons_append, mt_lit] at h
        rw [mt_lit]
        cases hst : stripCI p s with
        | none => simp only [hst] at h; cases h
        | some s₁ =>
          simp only [hst] at h ⊢
          exact ih xs' ys s₁ h
      | opt p =>
        cases s with
        | nil =>
          rw [List.cons_append, mt_opt_nil] at h
          rw [mt_opt_nil]
          exact ih xs' ys [] h
        | cons c s₀ =>
          rw [List.cons_append, mt_opt_cons, isSome_orElse, Bool.or_eq_true] at h
          rw [mt_opt_cons, isSome_orElse, Bool.or_eq_true]
          rcases h with h | h
          · by_cases hc : p c = true
            · rw [if_pos hc] at h
              exact Or.inl (by rw [if_pos hc]; exact ih xs' ys s₀ h)
            · rw [if_neg hc] at h; simp at h
          · exact Or.inr (ih xs' ys (c :: s₀) h)
      | starG p =>
        cases s with
        | nil =>
          rw [List.cons_append, mt_starG_nil] at h
          rw [mt_starG_nil]
          exact ih xs' ys [] h
        | cons c s₀ =>
          rw [List.cons_append, mt_starG_cons, isSome_orElse, Bool.or_eq_true] at h
          rw [mt_starG_cons, isSome_orElse, Bool.or_eq_true]
          rcases h with h | h
          · by_cases hc : p c = true
            · rw [if_pos hc] at h
              refine Or.inl ?_
              rw [if_pos hc]
              exact ih (Tok.starG p :: xs') ys s₀ (by rw [List.cons_append]; exact h)
            · rw [if_neg hc] at h; simp at h
          · exact Or.inr (ih xs' ys (c :: s₀) h)
      | plusG p =>
        cases s with
        | nil => rw [List.cons_append, mt_plusG_nil] at h; cases h
        | cons c s₀ =>
          rw [List.cons_append, mt_plusG_cons] at h
          rw [mt_plusG_cons]
          by_cases hc : p c = true
          · rw [if_pos hc] at h
            rw [if_pos hc]
            exact ih (Tok.starG p :: xs') ys s₀ (by rw [List.cons_append]; exact h)
          · rw [if_neg hc] at h; simp at h
      | starL p n acc =>
        cases s with
        | nil =>
          rw [List.cons_append, mt_starL_nil] at h
          rw [mt_starL_nil]
          cases hin : mt g (xs' ++ ys) [] with
          | some v =>
            have h2 : (mt g xs' []).isSome = true := ih xs' ys [] (by rw [hin]; rfl)
            cases hx : mt g xs' [] with
            | none => rw [hx] at h2; cases h2
            | some w => simp only [hx]; rfl
          | none => simp only [hin] at h; cases h
        | cons c s₀ =>
          rw [List.cons_append, mt_starL_cons] at h
          rw [mt_starL_cons]
          cases hin : mt g (xs' ++ ys) (c :: s₀) with
          | some v =>
            have h2 : (mt g xs' (c :: s₀)).isSome = true := ih xs' ys _ (by rw [hin]; rfl)
            cases hx : mt g xs' (c :: s₀) with
            | none => rw [hx] at h2; cases h2
            | some w => simp only [hx]; rfl
          | none =>
            simp only [hin] at h
            by_cases hc : p c = true
            · rw [if_pos hc] at h
              have h2 := ih (Tok.starL p n (c :: acc) :: xs') ys s₀
                (by rw [List.cons_append]; exact h)
              cases hx : mt g xs' (c :: s₀) with
              | some w => simp only [hx]; rfl
              | none =>
                simp only [hx]
                rw [if_pos hc]
                exact h2
            · rw [if_neg hc] at h; simp at h
      | plusL p n =>
        cases s with
        | nil => rw [List.cons_append, mt_plusL_nil] at h; cases h
        | cons c s₀ =>
          rw [List.cons_append, mt_plusL_cons] at h
          rw [mt_plusL_cons]
          by_cases hc : p c = true
          · rw [if_pos hc] at h
            rw [if_pos hc]
            exact ih (Tok.starL p n [c] :: xs') ys s₀ (by rw [List.cons_append]; exact h)
          · rw [if_neg hc] at h; simp at h
      | alt bs =>
        rw [List.cons_append, mt_alt] at h
        rw [mt_alt]
        obtain ⟨b, hb, hbs⟩ := (foldr_orElse_isSome _ _).mp h
        refine (foldr_orElse_isSome _ _).mpr ⟨b, hb, ?_⟩
        exact ih (b ++ xs') ys s (by rw [List.append_assoc]; exact hbs)
      | look bs =>
        rw [List.cons_append, mt_look] at h
        rw [mt_look]
        cases hin : bs.foldr (fun b acc => mt g b s <|> acc) none with
        | none => simp only [hin] at h; cases h
        | some v =>
          simp only [hin] at h ⊢
          exact ih xs' ys s h
      | endA =>
        cases s with
        | nil =>
          rw [List.cons_append, mt_endA_nil] at h
          rw [mt_endA_nil]
          exact ih xs' ys [] h
        | cons c s₀ => rw [List.cons_append, mt_endA_cons] at h; cases h

theorem mt_look_reach : ∀ (f : Nat) (xs : List Tok) (bs : List (List Tok)) (s : List Char),
    (mt f (xs ++ [Tok.look bs]) s).isSome = true →
      ∃ s', s' <:+ s ∧ ∃ f', f' < f ∧ ∃ b ∈ bs, (mt f' b s').isSome = true := by
  intro f
  induction f with
  | zero => intro xs bs s h; simp [mt_zero] at h
  | succ g ih =>
    intro xs bs s h
    cases xs with
    | nil =>
      rw [List.nil_append, mt_look] at h
      cases hin : bs.foldr (fun b acc => mt g b s <|> acc) none with
      | none => simp only [hin] at h; cases h
      | some v =>
        obtain ⟨b, hb, hbs⟩ := (foldr_orElse_isSome _ _).mp (by rw [hin]; rfl)
        exact ⟨s, List.suffix_refl s, g, Nat.lt_succ_self g, b, hb, hbs⟩
    | cons t xs' =>
      cases t with
      | lit p =>
        rw [List.cons_append, mt_lit] at h
        cases hst : stripCI p s with
        | none => simp only [hst] at h; cases h
        | some s₁ =>
          simp only [hst] at h
          obtain ⟨s', hsuf, f', hf, hb⟩ := ih xs' bs s₁ h
          exact ⟨s', hsuf.trans (stripCI_suffix p s s₁ hst), f', Nat.lt_succ_of_lt hf, hb⟩
      | opt p =>
        cases s with
        | nil =>
          rw [List.cons_append, mt_opt_nil] at h
          obtain ⟨s', hsuf, f', hf, hb⟩ := ih xs' bs [] h
          exact ⟨s', hsuf, f', Nat.lt_succ_of_lt hf, hb⟩
        | cons c s₀ =>
          rw [List.cons_append, mt_opt_cons, isSome_orElse, Bool.or_eq_true] at h
          rcases h with h | h
          · by_cases hc : p c = true
            · rw [if_pos hc] at h
              obtain ⟨s', hsuf, f', hf, hb⟩ := ih xs' bs s₀ h
              exact ⟨s', hsuf.trans (List.suffix_cons c s₀), f', Nat.lt_succ_of_lt hf, hb⟩
            · rw [if_neg hc] at h; simp at h
          · obtain ⟨s', hsuf, f', hf, hb⟩ := ih xs' bs (c :: s₀) h
            exact ⟨s', hsuf, f', Nat.lt_succ_of_lt hf, hb⟩
      | starG p =>
        cases s with
        | nil =>
          rw [List.cons_append, mt_starG_nil] at h
          obtain ⟨s', hsuf, f', hf, hb⟩ := ih xs' bs [] h
          exact ⟨s', hsuf, f', Nat.lt_succ_of_lt hf, hb⟩
        | cons c s₀ =>
          rw [List.cons_append, mt_starG_cons, isSome_orElse, Bool.or_eq_true] at h
          rcases h with h | h
          · by_cases hc : p c = true
            · rw [if_pos hc] at h
              obtain ⟨s', hsuf, f', hf, hb⟩ :=
                ih (Tok.starG p :: xs') bs s₀ (by rw [List.cons_append]; exact h)
              exact ⟨s', hsuf.trans (List.suffix_cons c s₀), f', Nat.lt_succ_of_lt hf, hb⟩
            · rw [if_neg hc] at h; simp at h
          · obtain ⟨s', hsuf, f', hf, hb⟩ := ih xs' bs (c :: s₀) h
            exact ⟨s', hsuf, f', Nat.lt_succ_of_lt hf, hb⟩
      | plusG p =>
        cases s with
        | nil => rw [List.cons_append, mt_plusG_nil] at h; cases h
        | cons c s₀ =>
          rw [List.cons_append, mt_plusG_cons] at h
          by_cases hc : p c = true
          · rw [if_pos hc] at h
            obtain ⟨s', hsuf, f', hf, hb⟩ :=
              ih (Tok.starG p :: xs') bs s₀ (by rw [List.cons_append]; exact h)
            exact ⟨s', hsuf.trans (List.suffix_cons c s₀), f', Nat.lt_succ_of_lt hf, hb⟩
          · rw [if_neg hc] at h; simp at h
      | starL p n acc =>
        cases s with
        | nil =>
          rw [List.cons_append, mt_starL_nil] at h
          cases hin : mt g (xs' ++ [Tok.look bs]) [] with
          | some v =>
            obtain ⟨s', hsuf, f', hf, hb⟩ := ih xs' bs [] (by rw [hin]; rfl)
            exact ⟨s', hsuf, f', Nat.lt_succ_of_lt hf, hb⟩
          | none => simp only [hin] at h; cases h
        | cons c s₀ =>
          rw [List.cons_append, mt_starL_cons] at h
          cases hin : mt g (xs' ++ [Tok.look bs]) (c :: s₀) with
          | some v =>
            obtain ⟨s', hsuf, f', hf, hb⟩ := ih xs' bs (c :: s₀) (by rw [hin]; rfl)
            exact ⟨s', hsuf, f', Nat.lt_succ_of_lt hf, hb⟩
          | none =>
            simp only [hin] at h
            by_cases hc : p c = true
            · rw [if_pos hc] at h
              obtain ⟨s', hsuf, f', hf, hb⟩ :=
                ih (Tok.starL p n (c :: acc) :: xs') bs s₀ (by rw [List.cons_append]; exact h)
              exact ⟨s', hsuf.trans (List.suffix_cons c s₀), f', Nat.lt_succ_of_lt hf, hb⟩
            · rw [if_neg hc] at h; simp at h
      | plusL p n =>
        cases s with
        | nil => rw [List.cons_append, mt_plusL_nil] at h; cases h
        | cons c s₀ =>
          rw [List.cons_append, mt_plusL_cons] at h
          by_cases hc : p c = true
          · rw [if_pos hc] at h
            obtain ⟨s', hsuf, f', hf, hb⟩ :=
              ih (Tok.starL p n [c] :: xs') bs s₀ (by rw [List.cons_append]; exact h)
            exact ⟨s', hsuf.trans (List.suffix_cons c s₀), f', Nat.lt_succ_of_lt hf, hb⟩
          · rw [if_neg hc] at h; simp at h
      | alt bs' =>
        rw [List.cons_append, mt_alt] at h
        obtain ⟨b, _, hbs⟩ := (foldr_orElse_isSome _ _).mp h
        obtain ⟨s', hsuf, f', hf, hb⟩ :=
          ih (b ++ xs') bs s (by rw [List.append_assoc]; exact hbs)
        exact ⟨s', hsuf, f', Nat.lt_succ_of_lt hf, hb⟩
      | look bs' =>
        rw [List.cons_append, mt_look] at h
        cases hin : bs'.foldr (fun b acc => mt g b s <|> acc) none with
        | none => simp only [hin] at h; cases h
        | some v =>
          simp only [hin] at h
          obtain ⟨s', hsuf, f', hf, hb⟩ := ih xs' bs s h
          exact ⟨s', hsuf, f', Nat.lt_succ_of_lt hf, hb⟩
      | endA =>
        cases s with
        | nil =>
          rw [List.cons_append, mt_endA_nil] at h
          obtain ⟨s', hsuf, f', hf, hb⟩ := ih xs' bs [] h
          exact ⟨s', hsuf, f', Nat.lt_succ_of_lt hf, hb⟩
        | cons c s₀ => rw [List.cons_append, mt_endA_cons] at h; cases h

theorem searchAcc_none (f : Nat) (toks : List Tok) :
    ∀ (s acc : List Char), (∀ s', s' <:+ s → mt f toks s' = none) →
      searchAcc f toks acc s = none := by
  intro s
  induction s with
  | nil =>
    intro acc h
    rw [searchAcc_nil, h [] (List.suffix_refl [])]
  | cons c s₀ ih =>
    intro acc h
    rw [searchAcc_cons, h (c :: s₀) (List.suffix_refl _)]
    exact ih (c :: acc) (fun s' hs' => h s' (hs'.trans (List.suffix_cons c s₀)))

theorem opt_isSome_false {α : Type} (o : Option α) : o.isSome = false ↔ o = none := by
  cases o <;> simp

theorem mt_lit_none (f : Nat) {p : List Char} (r : List Tok) {s : List Char}
    (h : stripCI p s = none) : mt f (Tok.lit p :: r) s = none := by
  cases f with
  | zero => rfl
  | succ g => rw [mt_lit, h]

theorem stripCI_head_fail {p₀ c : Char} (ps s : List Char) (h : ciEq p₀ c = false) :
    stripCI (p₀ :: ps) (c :: s) = none := by
  simp only [stripCI]
  rw [if_neg]
  simp [h]

theorem mt_lit_fail_head (f : Nat) {p₀ : Char} (ps : List Char) (r : List Tok)
    {c : Char} (s : List Char) (h : ciEq p₀ c = false) :
    mt f (Tok.lit (p₀ :: ps) :: r) (c :: s) = none :=
  mt_lit_none f r (stripCI_head_fail ps s h)

theorem stripCI_append_cases : ∀ (a w b rest : List Char),
    stripCI w (a ++ b) = some rest →
    ((stripCI w a).isSome = true) ∨
    (a.length < w.length ∧ (stripCI (w.drop a.length) b).isSome = true) := by
  intro a
  induction a with
  | nil =>
    intro w b rest h
    cases w with
    | nil => exact Or.inl rfl
    | cons y w' =>
      refine Or.inr ⟨by simp, ?_⟩
      rw [List.nil_append] at h
      simp [h]
  | cons x a' ih =>
    intro w b rest h
    cases w with
    | nil => exact Or.inl rfl
    | cons y w' =>
      rw [List.cons_append] at h
      simp only [stripCI] at h
      by_cases hy : ciEq y x = true
      · rw [if_pos hy] at h
        rcases ih w' b rest h with h' | ⟨hlen, h'⟩
        · refine Or.inl ?_
          simp only [stripCI]
          rw [if_pos hy]
          exact h'
        · exact Or.inr ⟨by simpa using Nat.succ_lt_succ hlen, by simpa using h'⟩
      · rw [if_neg hy] at h
        cases h

theorem ciOccurs_of_stripCI (w s : List Char) (i : Nat)
    (h : (stripCI w (s.drop i)).isSome = true) : ciOccurs w s = true := by
  refine (List.any_eq_true).mpr ⟨min i s.length, List.mem_range.mpr (by omega), ?_⟩
  rcases Nat.le_total i s.length with hle | hle
  · rw [min_eq_left hle]
    exact h
  · rw [min_eq_right hle, List.drop_eq_nil_of_le (le_refl _)]
    rw [List.drop_eq_nil_of_le hle] at h
    exact h

theorem stripCI_fail_in_field (w fld : List Char) (tc : Char) (tail' : List Char)
    (hocc : ciOccurs w fld = false)
    (hsp : ((w.drop 1).all fun d => !(ciEq d tc)) = true) :
    ∀ i, i < fld.length → (stripCI w (fld.drop i ++ tc :: tail')).isSome = false := by
  intro i hi
  by_contra hne
  rw [Bool.not_eq_false] at hne
  obtain ⟨rest, hrest⟩ := Option.isSome_iff_exists.mp hne
  rcases stripCI_append_cases (fld.drop i) w (tc :: tail') rest hrest with h' | ⟨hlen, h'⟩
  · rw [ciOccurs_of_stripCI w fld i h'] at hocc
    cases hocc
  · set k := (fld.drop i).length with hk
    have hk1 : 1 ≤ k := by
      rw [hk, List.length_drop]
      omega
    cases hwd : w.drop k with
    | nil =>
      have hlen2 : w.length - k = 0 := by
        rw [← List.length_drop, hwd]
        rfl
      omega
    | cons d ws' =>
      rw [hwd] at h'
      have hd : d ∈ w.drop 1 := by
        have hsub : w.drop k ⊆ w.drop 1 := by
          have : w.drop k = (w.drop 1).drop (k - 1) := by
            rw [List.drop_drop]
            congr 1
            omega
          rw [this]
          exact List.drop_subset _ _
        exact hsub (by rw [hwd]; exact List.mem_cons_self d ws')
      have hciEq : ciEq d tc = false := by
        have := (List.all_eq_true.mp hsp) d hd
        simpa using this
      rw [stripCI_head_fail ws' tail' hciEq] at h'
      cases h'

theorem mt_plusG_none (f : Nat) {q : Char → Bool} (r : List Tok) {s : List Char}
    (h : (s.head?.all fun c => !(q c)) = true) :
    mt f (Tok.plusG q :: r) s = none := by
  cases f with
  | zero => rfl
  | succ g =>
    cases s with
    | nil => rw [mt_plusG_nil]
    | cons c s₀ =>
      have hq : q c = false := by simpa using h
      rw [mt_plusG_cons, if_neg (by simp [hq])]

theorem starG_lit_fail_all (p : Char → Bool) (w : List Char) (r : List Tok) :
    ∀ (f : Nat) (s : List Char),
      (∀ j, ((s.take j).all p = true) → (stripCI w (s.drop j)).isSome = false) →
      mt f (Tok.starG p :: Tok.lit w :: r) s = none := by
  intro f
  induction f with
  | zero => intro s _; rfl
  | succ g ih =>
    intro s h
    have hr : ∀ f', mt f' (Tok.lit w :: r) s = none := fun f' =>
      mt_lit_none f' r ((opt_isSome_false _).mp (by simpa using h 0 (by simp)))
    cases s with
    | nil =>
      rw [mt_starG_nil]
      exact hr g
    | cons c s₀ =>
      rw [mt_starG_cons]
      by_cases hc : p c = true
      · rw [if_pos hc]
        have hl : mt g (Tok.starG p :: Tok.lit w :: r) s₀ = none := by
          apply ih
          intro j hj
          have h2 := h (j + 1) (by simp [List.take_succ_cons, List.all_cons, hc, hj])
          simpa [List.drop_succ_cons] using h2
        rw [hl, hr g]
        rfl
      · rw [if_neg hc, hr g]
        rfl

theorem plusG_lit_fail_all (p : Char → Bool) (w : List Char) (r : List Tok)
    (f : Nat) (s : List Char)
    (h : ∀ j, 1 ≤ j → ((s.take j).all p = true) → (stripCI w (s.drop j)).isSome = false) :
    mt f (Tok.plusG p :: Tok.lit w :: r) s = none := by
  cases f with
  | zero => rfl
  | succ g =>
    cases s with
    | nil => rw [mt_plusG_nil]
    | cons c s₀ =>
      rw [mt_plusG_cons]
      by_cases hc : p c = true
      · rw [if_pos hc]
        apply starG_lit_fail_all
        intro j hj
        have h2 := h (j + 1) (by omega)
          (by simp [List.take_succ_cons, List.all_cons, hc, hj])
        simpa [List.drop_succ_cons] using h2
      · rw [if_neg hc]

theorem starG_plusG_fail_all (p q : Char → Bool) (r : List Tok) :
    ∀ (f : Nat) (s : List Char),
      (∀ j, ((s.take j).all p = true) → ((s.drop j).head?.all fun c => !(q c)) = true) →
      mt f (Tok.starG p :: Tok.plusG q :: r) s = none := by
  intro f
  induction f with
  | zero => intro s _; rfl
  | succ g ih =>
    intro s h
    have hr : ∀ f', mt f' (Tok.plusG q :: r) s = none := fun f' =>
      mt_plusG_none f' r (by simpa using h 0 (by simp))
    cases s with
    | nil =>
      rw [mt_starG_nil]
      exact hr g
    | cons c s₀ =>
      rw [mt_starG_cons]
      by_cases hc : p c = true
      · rw [if_pos hc]
        have hl : mt g (Tok.starG p :: Tok.plusG q :: r) s₀ = none := by
          apply ih
          intro j hj
          have h2 := h (j + 1) (by simp [List.take_succ_cons, List.all_cons, hc, hj])
          simpa [List.drop_succ_cons] using h2
        rw [hl, hr g]
        rfl
      · rw [if_neg hc, hr g]
        rfl

theorem opt_sg_lit_fail (p q : Char → Bool) (w : List Char) (r : List Tok)
    (f : Nat) (s : List Char)
    (h : ∀ j, ((s.take j).all fun c => p c || q c) = true →
      (stripCI w (s.drop j)).isSome = false) :
    mt f (Tok.opt q :: Tok.starG p :: Tok.lit w :: r) s = none := by
  have hbase : ∀ (f' : Nat) (s' : List Char),
      (∀ j, ((s'.take j).all fun c => p c || q c) = true →
        (stripCI w (s'.drop j)).isSome = false) →
      mt f' (Tok.starG p :: Tok.lit w :: r) s' = none := by
    intro f' s' h'
    apply starG_lit_fail_all
    intro j hj
    refine h' j ?_
    rw [List.all_eq_true] at hj ⊢
    intro c hc
    simp [hj c hc]
  cases f with
  | zero => rfl
  | succ g =>
    cases s with
    | nil =>
      rw [mt_opt_nil]
      exact hbase g [] (fun j hj => by simpa using h j (by simp [hj]))
    | cons c s₀ =>
      rw [mt_opt_cons]
      have hright : mt g (Tok.starG p :: Tok.lit w :: r) (c :: s₀) = none := hbase g _ h
      by_cases hc : q c = true
      · rw [if_pos hc]
        have hleft : mt g (Tok.starG p :: Tok.lit w :: r) s₀ = none := by
          refine hbase g s₀ (fun j hj => ?_)
          have h2 := h (j + 1)
            (by simp [List.take_succ_cons, List.all_cons, hc, hj])
          simpa [List.drop_succ_cons] using h2
        rw [hleft, hright]
        rfl
      · rw [if_neg hc, hright]
        rfl

theorem sg_opt_sg_lit_fail (p q : Char → Bool) (w : List Char) (r : List Tok) :
    ∀ (f : Nat) (s : List Char),
      (∀ j, ((s.take j).all fun c => p c || q c) = true →
        (stripCI w (s.drop j)).isSome = false) →
      mt f (Tok.starG p :: Tok.opt q :: Tok.starG p :: Tok.lit w :: r) s = none := by
  intro f
  induction f with
  | zero => intro s _; rfl
  | succ g ih =>
    intro s h
    have hr : ∀ f', mt f' (Tok.opt q :: Tok.starG p :: Tok.lit w :: r) s = none := fun f' =>
      opt_sg_lit_fail p q w r f' s h
    cases s with
    | nil =>
      rw [mt_starG_nil]
      exact hr g
    | cons c s₀ =>
      rw [mt_starG_cons]
      by_cases hc : p c = true
      · rw [if_pos hc]
        have hl : mt g (Tok.starG p :: Tok.opt q :: Tok.starG p :: Tok.lit w :: r) s₀ = none := by
          apply ih
          intro j hj
          have h2 := h (j + 1)
            (by simp [List.take_succ_cons, List.all_cons, hc, hj])
          simpa [List.drop_succ_cons] using h2
        rw [hl, hr g]
        rfl
      · rw [if_neg hc, hr g]
        rfl

theorem starL_capture (p : Char → Bool) (nn : Nat) (r : List Tok) (v : List Char)
    (caps : Caps) (rem : List Char) (B : Nat)
    (hend : ∀ f, B ≤ f → mt f r v = some (caps, rem)) :
    ∀ (u acc : List Char) (f : Nat),
      (∀ c ∈ u, p c = true) →
      (∀ (i : Nat) (f' : Nat), i < u.length → mt f' r (u.drop i ++ v) = none) →
      u.length + B + 1 ≤ f →
      mt f (Tok.starL p nn acc :: r) (u ++ v) =
        some ((nn, acc.reverse ++ u) :: caps, rem) := by
  intro u
  induction u with
  | nil =>
    intro acc f _ _ hf
    obtain ⟨g, rfl⟩ : ∃ g, f = g + 1 := ⟨f - 1, by omega⟩
    rw [List.nil_append, List.append_nil]
    cases v with
    | nil =>
      rw [mt_starL_nil, hend g (by omega)]
    | cons c v₀ =>
      rw [mt_starL_cons, hend g (by omega)]
  | cons c u' ih =>
    intro acc f hall hfail hf
    obtain ⟨g, rfl⟩ : ∃ g, f = g + 1 := ⟨f - 1, by omega⟩
    rw [List.cons_append, mt_starL_cons]
    have h0 : mt g r (c :: (u' ++ v)) = none := by
      have := hfail 0 g (by simp)
      simpa using this
    rw [h0, if_pos (hall c (List.mem_cons_self c u'))]
    have hrec := ih (c :: acc) g (fun x hx => hall x (List.mem_cons_of_mem c hx))
      (fun i f' hi => by
        have := hfail (i + 1) f' (by simpa using Nat.succ_lt_succ hi)
        simpa [List.drop_succ_cons] using this)
      (by simp at hf ⊢; omega)
    rw [hrec]
    simp [List.reverse_cons, List.append_assoc]

theorem plusL_capture (p : Char → Bool) (nn : Nat) (r : List Tok) (v : List Char)
    (caps : Caps) (rem : List Char) (B : Nat)
    (hend : ∀ f, B ≤ f → mt f r v = some (caps, rem))
    (u : List Char) (f : Nat) (hne : u ≠ [])
    (hall : ∀ c ∈ u, p c = true)
    (hfail : ∀ (i : Nat) (f' : Nat), i < u.length → mt f' r (u.drop i ++ v) = none)
    (hf : u.length + B + 1 ≤ f) :
    mt f (Tok.plusL p nn :: r) (u ++ v) = some ((nn, u) :: caps, rem) := by
  cases u with
  | nil => exact absurd rfl hne
  | cons c u' =>
    obtain ⟨g, rfl⟩ : ∃ g, f = g + 1 := ⟨f - 1, by omega⟩
    rw [List.cons_append, mt_plusL_cons, if_pos (hall c (List.mem_cons_self c u'))]
    have hrec := starL_capture p nn r v caps rem B hend u' [c] g
      (fun x hx => hall x (List.mem_cons_of_mem c hx))
      (fun i f' hi => by
        have := hfail (i + 1) f' (by simpa using Nat.succ_lt_succ hi)
        simpa [List.drop_succ_cons] using this)
      (by simp at hf ⊢; omega)
    rw [hrec]
    simp

theorem mt_nil_step (s : List Char) : ∀ f, 1 ≤ f → mt f [] s = some ([], s) := by
  intro f hf
  obtain ⟨g, rfl⟩ : ∃ g, f = g + 1 := ⟨f - 1, by omega⟩
  exact mt_nil g s

theorem mt_lit_step (w : List Char) (r : List Tok) (s s' : List Char)
    (res : Caps × List Char) (b : Nat)
    (hstrip : stripCI w s = some s')
    (hnext : ∀ f, b ≤ f → mt f r s' = some res) :
    ∀ f, b + 1 ≤ f → mt f (Tok.lit w :: r) s = some res := by
  intro f hf
  obtain ⟨g, rfl⟩ : ∃ g, f = g + 1 := ⟨f - 1, by omega⟩
  rw [mt_lit, hstrip]
  exact hnext g (by omega)

theorem mt_starG_skip_step (p : Char → Bool) (r : List Tok) (c : Char) (s : List Char)
    (res : Caps × List Char) (b : Nat)
    (hc : p c = false)
    (hnext : ∀ f, b ≤ f → mt f r (c :: s) = some res) :
    ∀ f, b + 1 ≤ f → mt f (Tok.starG p :: r) (c :: s) = some res := by
  intro f hf
  obtain ⟨g, rfl⟩ : ∃ g, f = g + 1 := ⟨f - 1, by omega⟩
  rw [mt_starG_cons, if_neg (by simp [hc]), hnext g (by omega)]
  rfl

theorem mt_starG_one_step (p : Char → Bool) (r : List Tok) (c d : Char) (s : List Char)
    (res : Caps × List Char) (b : Nat)
    (hc : p c = true) (hd : p d = false)
    (hnext : ∀ f, b ≤ f → mt f r (d :: s) = some res) :
    ∀ f, b + 2 ≤ f → mt f (Tok.starG p :: r) (c :: d :: s) = some res := by
  intro f hf
  obtain ⟨g, rfl⟩ : ∃ g, f = g + 1 := ⟨f - 1, by omega⟩
  rw [mt_starG_cons, if_pos hc,
    mt_starG_skip_step p r d s res b hd hnext g (by omega)]
  rfl

theorem mt_opt_skip_step (q : Char → Bool) (r : List Tok) (c : Char) (s : List Char)
    (res : Caps × List Char) (b : Nat)
    (hc : q c = false)
    (hnext : ∀ f, b ≤ f → mt f r (c :: s) = some res) :
    ∀ f, b + 1 ≤ f → mt f (Tok.opt q :: r) (c :: s) = some res := by
  intro f hf
  obtain ⟨g, rfl⟩ : ∃ g, f = g + 1 := ⟨f - 1, by omega⟩
  rw [mt_opt_cons, if_neg (by simp [hc]), hnext g (by omega)]
  rfl

theorem mt_plusG_one_step (p : Char → Bool) (r : List Tok) (c d : Char) (s : List Char)
    (res : Caps × List Char) (b : Nat)
    (hc : p c = true) (hd : p d = false)
    (hnext : ∀ f, b ≤ f → mt f r (d :: s) = some res) :
    ∀ f, b + 2 ≤ f → mt f (Tok.plusG p :: r) (c :: d :: s) = some res := by
  intro f hf
  obtain ⟨g, rfl⟩ : ∃ g, f = g + 1 := ⟨f - 1, by omega⟩
  rw [mt_plusG_cons, if_pos hc]
  exact mt_starG_skip_step p r d s res b hd hnext g (by omega)

theorem mt_endA_nil_step (r : List Tok) (res : Caps × List Char) (b : Nat)
    (hnext : ∀ f, b ≤ f → mt f r [] = some res) :
    ∀ f, b + 1 ≤ f → mt f (Tok.endA :: r) [] = some res := by
  intro f hf
  obtain ⟨g, rfl⟩ : ∃ g, f = g + 1 := ⟨f - 1, by omega⟩
  rw [mt_endA_nil]
  exact hnext g (by omega)

theorem mt_alt_step1 (A : List Tok) (bs' : List (List Tok)) (r : List Tok)
    (s : List Char) (res : Caps × List Char) (b : Nat)
    (hA : ∀ f, b ≤ f → mt f (A ++ r) s = some res) :
    ∀ f, b + 1 ≤ f → mt f (Tok.alt (A :: bs') :: r) s = some res := by
  intro f hf
  obtain ⟨g, rfl⟩ : ∃ g, f = g + 1 := ⟨f - 1, by omega⟩
  rw [mt_alt, List.foldr_cons, hA g (by omega)]
  rfl

theorem mt_alt_step2 (A B : List Tok) (r : List Tok) (s : List Char)
    (res : Caps × List Char) (b : Nat)
    (hA : ∀ f, mt f (A ++ r) s = none)
    (hB : ∀ f, b ≤ f → mt f (B ++ r) s = some res) :
    ∀ f, b + 1 ≤ f → mt f (Tok.alt [A, B] :: r) s = some res := by
  intro f hf
  obtain ⟨g, rfl⟩ : ∃ g, f = g + 1 := ⟨f - 1, by omega⟩
  rw [mt_alt]
  simp only [List.foldr_cons, List.foldr_nil]
  rw [hA g, hB g (by omega)]
  rfl

theorem mt_alt_step3 (A B C : List Tok) (r : List Tok) (s : List Char)
    (res : Caps × List Char) (b : Nat)
    (hA : ∀ f, mt f (A ++ r) s = none)
    (hB : ∀ f, mt f (B ++ r) s = none)
    (hC : ∀ f, b ≤ f → mt f (C ++ r) s = some res) :
    ∀ f, b + 1 ≤ f → mt f (Tok.alt [A, B, C] :: r) s = some res := by
  intro f hf
  obtain ⟨g, rfl⟩ : ∃ g, f = g + 1 := ⟨f - 1, by omega⟩
  rw [mt_alt]
  simp only [List.foldr_cons, List.foldr_nil]
  rw [hA g, hB g, hC g (by omega)]
  rfl

theorem mt_look_step_first (A : List Tok) (bs' : List (List Tok)) (r : List Tok)
    (s : List Char) (resA res : Caps × List Char) (bA b : Nat)
    (hA : ∀ f, bA ≤ f → mt f A s = some resA)
    (hnext : ∀ f, b ≤ f → mt f r s = some res) :
    ∀ f, bA + b + 1 ≤ f → mt f (Tok.look (A :: bs') :: r) s = some res := by
  intro f hf
  obtain ⟨g, rfl⟩ : ∃ g, f = g + 1 := ⟨f - 1, by omega⟩
  rw [mt_look, List.foldr_cons, hA g (by omega)]
  exact hnext g (by omega)

theorem mt_look_step_second (A B : List Tok) (r : List Tok)
    (s : List Char) (resB res : Caps × List Char) (bB b : Nat)
    (hA : ∀ f, mt f A s = none)
    (hB : ∀ f, bB ≤ f → mt f B s = some resB)
    (hnext : ∀ f, b ≤ f → mt f r s = some res) :
    ∀ f, bB + b + 1 ≤ f → mt f (Tok.look [A, B] :: r) s = some res := by
  intro f hf
  obtain ⟨g, rfl⟩ : ∃ g, f = g + 1 := ⟨f - 1, by omega⟩
  rw [mt_look]
  simp only [List.foldr_cons, List.foldr_nil]
  rw [hA g, hB g (by omega)]
  exact hnext g (by omega)

theorem searchAcc_cons_none (f : Nat) (toks : List Tok) (acc : List Char)
    (c : Char) (s : List Char) (h : mt f toks (c :: s) = none) :
    searchAcc f toks acc (c :: s) = searchAcc f toks (c :: acc) s := by
  rw [searchAcc_cons, h]

theorem searchAcc_found (f : Nat) (toks : List Tok) (acc s : List Char)
    (caps : Caps) (rem : List Char) (h : mt f toks s = some (caps, rem)) :
    searchAcc f toks acc s = some (acc.reverse, caps, rem) := by
  cases s with
  | nil => rw [searchAcc_nil, h]
  | cons c s₀ => rw [searchAcc_cons, h]

theorem searchAcc_append_none (f : Nat) (toks : List Tok) :
    ∀ (a b acc : List Char),
      (∀ i, i < a.length → mt f toks (a.drop i ++ b) = none) →
      searchAcc f toks acc (a ++ b) = searchAcc f toks (a.reverse ++ acc) b := by
  intro a
  induction a with
  | nil =>
    intro b acc _
    simp
  | cons c a' ih =>
    intro b acc h
    rw [List.cons_append,
      searchAcc_cons_none _ _ _ _ _ (by simpa using h 0 (by simp)),
      ih b (c :: acc) (fun i hi => by
        have := h (i + 1) (by simpa using Nat.succ_lt_succ hi)
        simpa [List.drop_succ_cons] using this)]
    simp [List.reverse_cons, List.append_assoc]

theorem dropWhile_eq_self_of_head (p : Char → Bool) (s : List Char)
    (h : s.head?.all (fun c => !(p c)) = true) : s.dropWhile p = s := by
  cases s with
  | nil => rfl
  | cons c s₀ =>
    have hc : p c = false := by simpa using h
    rw [List.dropWhile_cons, if_neg (by simp [hc])]

theorem pyStrip_eq_self (s : List Char)
    (h1 : s.head?.all (fun c => !(pySpace c)) = true)
    (h2 : s.getLast?.all (fun c => !(pySpace c)) = true) :
    pyStrip s = s := by
  unfold pyStrip
  rw [dropWhile_eq_self_of_head _ _ h1,
    dropWhile_eq_self_of_head _ _ (by rwa [List.head?_reverse]),
    List.reverse_reverse]

theorem pyStrip_append_nl (k : List Char) (hne : k ≠ [])
    (h1 : k.head?.all (fun c => !(pySpace c)) = true)
    (h2 : k.getLast?.all (fun c => !(pySpace c)) = true) :
    pyStrip (k ++ ['\n']) = k := by
  unfold pyStrip
  have hd : (k ++ ['\n']).dropWhile pySpace = k ++ ['\n'] := by
    refine dropWhile_eq_self_of_head _ _ ?_
    cases k with
    | nil => exact absurd rfl hne
    | cons c k₀ =>
      simpa using h1
  rw [hd, List.reverse_append]
  simp only [List.reverse_cons, List.reverse_nil, List.nil_append, List.singleton_append]
  rw [List.dropWhile_cons, if_pos (by decide),
    dropWhile_eq_self_of_head _ _ (by rwa [List.head?_reverse]),
    List.reverse_reverse]

theorem pyReplaceGo_skip (pat rep : List Char) (p₀ : Char) (hp : pat.head? = some p₀) :
    ∀ (fu : Nat) (s : List Char), p₀ ∉ s → pyReplaceGo pat rep fu s = s := by
  intro fu
  induction fu with
  | zero => intro s _; rfl
  | succ g ih =>
    intro s hmem
    cases s with
    | nil => rfl
    | cons c s₀ =>
      have hpre : pat.isPrefixOf (c :: s₀) = false := by
        cases pat with
        | nil => cases hp
        | cons q qs =>
          have hq : q = p₀ := by
            simpa using hp
          subst hq
          have : q ≠ c := fun hqc => hmem (hqc ▸ List.mem_cons_self c s₀)
          simp [List.isPrefixOf, this]
      have hguard : (decide (pat ≠ []) && pat.isPrefixOf (c :: s₀)) = false := by
        simp [hpre]
      simp only [pyReplaceGo, hguard, Bool.false_eq_true, if_false]
      rw [ih s₀ (fun hmem2 => hmem (List.mem_cons_of_mem c hmem2))]

theorem cleanData_no_star (s : List Char) (h : ¬ '*' ∈ s) : cleanData s = s := by
  unfold cleanData pyReplace
  rw [pyReplaceGo_skip "**".data [] '*' rfl _ s h,
    pyReplaceGo_skip "*".data [] '*' rfl _ s h]

theorem hasB2At_of_mt (f : Nat) (r : List Tok) (s : List Char)
    (h : (mt f (b2a ++ r) s).isSome = true) : hasB2At s = true := by
  have hshape : b2a ++ r =
      Tok.lit "BLOCK".data :: Tok.starG pySpace :: Tok.lit "2".data :: r := rfl
  rw [hshape] at h
  obtain ⟨s₁, f₁, hstrip, _, h1⟩ := mt_lit_inv _ _ _ _ h
  obtain ⟨n, f₂, hall, _, h2⟩ := mt_starG_inv _ _ _ _ h1
  obtain ⟨s₂, f₃, h2strip, _, _⟩ := mt_lit_inv _ _ _ _ h2
  have hn : n < s₁.length + 1 := by
    by_contra hcon
    push_neg at hcon
    rw [List.drop_eq_nil_of_le (by omega)] at h2strip
    simp [stripCI] at h2strip
  simp only [hasB2At, hstrip]
  refine (List.any_eq_true).mpr ⟨n, List.mem_range.mpr hn, ?_⟩
  rw [hall, h2strip]
  rfl

theorem hasDEAt_of_mt (f : Nat) (r : List Tok) (s : List Char)
    (h : (mt f (b2b ++ r) s).isSome = true) : hasDEAt s = true := by
  have hshape : b2b ++ r =
      Tok.lit "DE".data :: Tok.starG dashSpace :: Tok.lit "IDENTIFIED".data ::
        Tok.plusG pySpace :: Tok.lit "DOCUMENT".data :: r := rfl
  rw [hshape] at h
  obtain ⟨s₁, f₁, hstrip, _, h1⟩ := mt_lit_inv _ _ _ _ h
  obtain ⟨n, f₂, hall, _, h2⟩ := mt_starG_inv _ _ _ _ h1
  obtain ⟨s₂, f₃, h2strip, _, h3⟩ := mt_lit_inv _ _ _ _ h2
  obtain ⟨m, f₄, hm1, hmall, _, h4⟩ := mt_plusG_inv _ _ _ _ h3
  obtain ⟨s₃, f₅, h3strip, _, _⟩ := mt_lit_inv _ _ _ _ h4
  have hn : n < s₁.length + 1 := by
    by_contra hcon
    push_neg at hcon
    rw [List.drop_eq_nil_of_le (by omega)] at h2strip
    simp [stripCI] at h2strip
  have hm : m < s₂.length + 1 := by
    by_contra hcon
    push_neg at hcon
    rw [List.drop_eq_nil_of_le (by omega)] at h3strip
    simp [stripCI] at h3strip
  simp only [hasDEAt, hstrip]
  refine (List.any_eq_true).mpr ⟨n, List.mem_range.mpr hn, ?_⟩
  rw [hall, h2strip]
  simp only [Bool.true_and]
  refine (List.any_eq_true).mpr ⟨m, List.mem_range.mpr hm, ?_⟩
  rw [hmall, h3strip]
  simp [hm1]

theorem markerAlt_inv (f : Nat) (r : List Tok) (s : List Char)
    (h : (mt f (Tok.alt markerB2 :: r) s).isSome = true) :
    hasB2At s = true ∨ hasDEAt s = true := by
  cases f with
  | zero => simp [mt_zero] at h
  | succ g =>
    rw [mt_alt] at h
    obtain ⟨b, hb, hbs⟩ := (foldr_orElse_isSome _ _).mp h
    have hb' : b = b2a ∨ b = b2b := by simpa [markerB2] using hb
    rcases hb' with hb' | hb' <;> subst hb'
    · exact Or.inl (hasB2At_of_mt _ _ _ hbs)
    · exact Or.inr (hasDEAt_of_mt _ _ _ hbs)

theorem noB2Marker_suffix (s : List Char) (h : noB2Marker s = true) :
    ∀ s', s' <:+ s → hasB2At s' = false ∧ hasDEAt s' = false := by
  intro s' hs'
  obtain ⟨t, ht⟩ := hs'
  have hdrop : s' = s.drop t.length := by rw [← ht, List.drop_left]
  have hlen : t.length < s.length + 1 := by
    have hlen2 : t.length + s'.length = s.length := by rw [← ht, List.length_append]
    omega
  unfold noB2Marker at h
  rw [List.all_eq_true] at h
  have h2 := h t.length (List.mem_range.mpr hlen)
  simp only [Bool.and_eq_true, Bool.not_eq_true'] at h2
  rw [hdrop]
  exact h2

theorem splitGo_none (f : Nat) (toks : List Tok) (iter : Nat) (s : List Char)
    (h : searchAcc f toks [] s = none) : splitGo f toks iter s = [s] := by
  cases iter with
  | zero => rfl
  | succ it => simp only [splitGo, h]

theorem wfField_parts (s : List Char) (h : wfField s = true) :
    s ≠ [] ∧
    (∀ c ∈ s, (pySpace c = false ∨ c = ' ') ∧ c ≠ '*') ∧
    s.head?.all (fun c => !(pySpace c)) = true ∧
    s.getLast?.all (fun c => !(pySpace c) && !(bulletCls c)) = true ∧
    (∀ w ∈ (["BLOCK", "DE", "Category:", "Original", "Replacement:", "Consistency"] :
      List String), ciOccurs w.data s = false) := by
  unfold wfField at h
  simp only [Bool.and_eq_true] at h
  obtain ⟨⟨⟨⟨h0, h1⟩, h2⟩, h3⟩, h4⟩ := h
  refine ⟨?_, ?_, h2, h3, ?_⟩
  · intro he
    rw [he] at h0
    simp at h0
  · intro c hc
    have := (List.all_eq_true.mp h1) c hc
    simp only [Bool.and_eq_true, Bool.or_eq_true, Bool.not_eq_true', beq_iff_eq,
      bne_iff_ne] at this
    exact this
  · intro w hw
    have := (List.all_eq_true.mp h4) w hw
    simpa using this

theorem wfBody_parts (b : List Char) (h : wfBody b = true) :
    b ≠ [] ∧ ('*' ∉ b) ∧
    b.head?.all (fun c => !(sepClass c)) = true ∧
    b.getLast?.all (fun c => !(pySpace c)) = true ∧
    ciOccurs "\n\n---".data b = false ∧ ciOccurs "\n\nNote:".data b = false := by
  unfold wfBody at h
  simp only [Bool.and_eq_true] at h
  obtain ⟨⟨⟨⟨⟨h0, h1⟩, h2⟩, h3⟩, h4⟩, h5⟩ := h
  refine ⟨?_, ?_, h2, h3, by simpa using h4, by simpa using h5⟩
  · intro he
    rw [he] at h0
    simp at h0
  · intro hmem
    have := (List.all_eq_true.mp h1) '*' hmem
    simp at this

theorem markerB2_fail_of_stripCI (f : Nat) (r : List Tok) (s : List Char)
    (hB : (stripCI "BLOCK".data s).isSome = false)
    (hD : (stripCI "DE".data s).isSome = false) :
    mt f (Tok.alt markerB2 :: r) s = none := by
  cases f with
  | zero => rfl
  | succ g =>
    rw [mt_alt]
    simp only [markerB2, List.foldr_cons, List.foldr_nil]
    have h1 : mt g (b2a ++ r) s = none := by
      have hsh : b2a ++ r =
          Tok.lit "BLOCK".data :: (Tok.starG pySpace :: Tok.lit "2".data :: r) := rfl
      rw [hsh]
      exact mt_lit_none g _ ((opt_isSome_false _).mp hB)
    have h2 : mt g (b2b ++ r) s = none := by
      have hsh : b2b ++ r =
          Tok.lit "DE".data :: (Tok.starG dashSpace :: Tok.lit "IDENTIFIED".data ::
            Tok.plusG pySpace :: Tok.lit "DOCUMENT".data :: r) := rfl
      rw [hsh]
      exact mt_lit_none g _ ((opt_isSome_false _).mp hD)
    rw [h1, h2]
    rfl

theorem lookB2_fail (f : Nat) (r : List Tok) (s : List Char)
    (hB : (stripCI "BLOCK".data s).isSome = false)
    (hD : (stripCI "DE".data s).isSome = false) :
    mt f (Tok.look markerB2 :: r) s = none := by
  cases f with
  | zero => rfl
  | succ g =>
    rw [mt_look]
    simp only [markerB2, List.foldr_cons, List.foldr_nil]
    have h1 : mt g b2a s = none := by
      have hsh : b2a =
          Tok.lit "BLOCK".data :: [Tok.starG pySpace, Tok.lit "2".data] := rfl
      rw [hsh]
      exact mt_lit_none g _ ((opt_isSome_false _).mp hB)
    have h2 : mt g b2b s = none := by
      have hsh : b2b =
          Tok.lit "DE".data :: [Tok.starG dashSpace, Tok.lit "IDENTIFIED".data,
            Tok.plusG pySpace, Tok.lit "DOCUMENT".data] := rfl
      rw [hsh]
      exact mt_lit_none g _ ((opt_isSome_false _).mp hD)
    rw [h1, h2]
    rfl

theorem stripCI_fail_in_lit (w₀ : Char) (ws seg : List Char)
    (hseg : (seg.all fun x => !(ciEq w₀ x)) = true) :
    ∀ (i : Nat) (t : List Char), i < seg.length →
      (stripCI (w₀ :: ws) (seg.drop i ++ t)).isSome = false := by
  intro i t hi
  cases hdrop : seg.drop i with
  | nil =>
    have hlen := congrArg List.length hdrop
    simp [List.length_drop] at hlen
    omega
  | cons x rest =>
    have hx : x ∈ seg := List.drop_subset i seg (by rw [hdrop]; exact List.mem_cons_self x rest)
    have hcx : ciEq w₀ x = false := by simpa using (List.all_eq_true.mp hseg) x hx
    have hnone : stripCI (w₀ :: ws) (x :: (rest ++ t)) = none := stripCI_head_fail _ _ hcx
    show (stripCI (w₀ :: ws) (x :: (rest ++ t))).isSome = false
    rw [hnone]
    rfl

theorem stripCI_fail_append (w a b tail : List Char)
    (ha : ∀ i, i < a.length → (stripCI w (a.drop i ++ (b ++ tail))).isSome = false)
    (hb : ∀ i, i < b.length → (stripCI w (b.drop i ++ tail)).isSome = false) :
    ∀ i, i < (a ++ b).length → (stripCI w ((a ++ b).drop i ++ tail)).isSome = false := by
  intro i hi
  by_cases hia : i < a.length
  · rw [List.drop_append_of_le_length (le_of_lt hia), List.append_assoc]
    exact ha i hia
  · push_neg at hia
    have hdrop : (a ++ b).drop i = b.drop (i - a.length) := by
      have hieq : i = a.length + (i - a.length) := by omega
      rw [hieq, List.drop_append]
      congr 1
      omega
    rw [hdrop]
    exact hb (i - a.length) (by rw [List.length_append] at hi; omega)

/-! Composable failure and success combinators for the round-trip
development (C2). -/

theorem all_take_mono (p : Char → Bool) (s : List Char) (j m : Nat) (hm : m ≤ j)
    (h : ((s.take j).all p) = true) : ((s.take m).all p) = true := by
  have heq : s.take m = (s.take j).take m := by
    rw [List.take_take, min_eq_left hm]
  rw [heq, List.all_eq_true]
  intro x hx
  exact (List.all_eq_true.mp h) x (List.take_subset _ _ hx)

theorem mt_lit_fail_then (w : List Char) (r : List Tok) (s s' : List Char)
    (hstrip : stripCI w s = some s')
    (hrest : ∀ f, mt f r s' = none) :
    ∀ f, mt f (Tok.lit w :: r) s = none := by
  intro f
  cases f with
  | zero => rfl
  | succ g => rw [mt_lit, hstrip]; exact hrest g

theorem mt_starG_fail_stop (p : Char → Bool) (r : List Tok) (c : Char) (s : List Char)
    (hc : p c = false)
    (hskip : ∀ f, mt f r (c :: s) = none) :
    ∀ f, mt f (Tok.starG p :: r) (c :: s) = none := by
  intro f
  cases f with
  | zero => rfl
  | succ g =>
    rw [mt_starG_cons, if_neg (by simp [hc]), hskip g]
    rfl

theorem mt_starG_fail_split (p : Char → Bool) (r : List Tok) (c : Char) (s : List Char)
    (hc : p c = true)
    (hcons : ∀ f, mt f (Tok.starG p :: r) s = none)
    (hskip : ∀ f, mt f r (c :: s) = none) :
    ∀ f, mt f (Tok.starG p :: r) (c :: s) = none := by
  intro f
  cases f with
  | zero => rfl
  | succ g =>
    rw [mt_starG_cons, if_pos hc, hcons g, hskip g]
    rfl

theorem mt_starG_back_step (p : Char → Bool) (r : List Tok) (c : Char) (s : List Char)
    (res : Caps × List Char) (b : Nat)
    (hc : p c = true)
    (hfail : ∀ f, mt f (Tok.starG p :: r) s = none)
    (hnext : ∀ f, b ≤ f → mt f r (c :: s) = some res) :
    ∀ f, b + 1 ≤ f → mt f (Tok.starG p :: r) (c :: s) = some res := by
  intro f hf
  obtain ⟨g, rfl⟩ : ∃ g, f = g + 1 := ⟨f - 1, by omega⟩
  rw [mt_starG_cons, if_pos hc, hfail g, hnext g (by omega)]
  rfl

theorem mt_opt_fail (q : Char → Bool) (r : List Tok) (c : Char) (s : List Char)
    (harm : ∀ f, mt f r s = none)
    (hskip : ∀ f, mt f r (c :: s) = none) :
    ∀ f, mt f (Tok.opt q :: r) (c :: s) = none := by
  intro f
  cases f with
  | zero => rfl
  | succ g =>
    rw [mt_opt_cons, hskip g]
    by_cases hc : q c = true
    · rw [if_pos hc, harm g]; rfl
    · rw [if_neg (by simp [hc])]; rfl

theorem mt_alt_none2 (A B : List Tok) (r : List Tok) (s : List Char)
    (hA : ∀ f, mt f (A ++ r) s = none)
    (hB : ∀ f, mt f (B ++ r) s = none) :
    ∀ f, mt f (Tok.alt [A, B] :: r) s = none := by
  intro f
  cases f with
  | zero => rfl
  | succ g =>
    rw [mt_alt]
    simp only [List.foldr_cons, List.foldr_nil]
    rw [hA g, hB g]
    rfl

theorem mt_alt_none3 (A B C : List Tok) (r : List Tok) (s : List Char)
    (hA : ∀ f, mt f (A ++ r) s = none)
    (hB : ∀ f, mt f (B ++ r) s = none)
    (hC : ∀ f, mt f (C ++ r) s = none) :
    ∀ f, mt f (Tok.alt [A, B, C] :: r) s = none := by
  intro f
  cases f with
  | zero => rfl
  | succ g =>
    rw [mt_alt]
    simp only [List.foldr_cons, List.foldr_nil]
    rw [hA g, hB g, hC g]
    rfl

theorem mt_look_none2 (A B : List Tok) (r : List Tok) (s : List Char)
    (hA : ∀ f, mt f A s = none)
    (hB : ∀ f, mt f B s = none) :
    ∀ f, mt f (Tok.look [A, B] :: r) s = none := by
  intro f
  cases f with
  | zero => rfl
  | succ g =>
    rw [mt_look]
    simp only [List.foldr_cons, List.foldr_nil]
    rw [hA g, hB g]
    rfl

theorem mt_endA_cons_none (r : List Tok) (c : Char) (s : List Char) :
    ∀ f, mt f (Tok.endA :: r) (c :: s) = none := by
  intro f
  cases f with
  | zero => rfl
  | succ g => exact mt_endA_cons g r c s

theorem sg_lit_nil_fail (p : Char → Bool) (w₀ : Char) (ws : List Char) (r : List Tok) :
    ∀ f, mt f (Tok.starG p :: Tok.lit (w₀ :: ws) :: r) [] = none := by
  intro f
  cases f with
  | zero => rfl
  | succ g =>
    rw [mt_starG_nil]
    exact mt_lit_none g r rfl

theorem sepClass_of_pySpace (c : Char) (h : pySpace c = true) : sepClass c = true := by
  simp [sepClass, h]

theorem pySpace_false_of_sepClass_false (c : Char) (h : sepClass c = false) :
    pySpace c = false := by
  by_contra hne
  rw [Bool.not_eq_false] at hne
  rw [sepClass_of_pySpace c hne] at h
  cases h

theorem isNl_false_of_sepClass_false (c : Char) (h : sepClass c = false) :
    isNl c = false := by
  by_contra hne
  rw [Bool.not_eq_false] at hne
  have hc : c = '\n' := by simpa [isNl] using hne
  subst hc
  have : sepClass '\n' = true := by decide
  rw [this] at h
  cases h

theorem option_all_and_left (o : Option Char) (p q : Char → Bool)
    (h : (o.all fun c => p c && q c) = true) : (o.all p) = true := by
  cases o with
  | none => rfl
  | some c =>
    have hc : p c = true ∧ q c = true := by simpa using h
    simpa using hc.1

theorem field_gap_lit_fail (w₀ : Char) (ws : List Char) (fld : List Char)
    (hlast : fld.getLast?.all (fun c => !(pySpace c)) = true)
    (hws : (ws.all fun d => !(ciEq d ' ')) = true)
    (hocc : ciOccurs (w₀ :: ws) fld = false)
    (tail : List Char) (r : List Tok) :
    ∀ i, i < fld.length → ∀ f,
      mt f (Tok.plusG pySpace :: Tok.lit (w₀ :: ws) :: r)
        (fld.drop i ++ ' ' :: tail) = none := by
  intro i hi f
  rcases List.eq_nil_or_concat fld with hfe | ⟨fld₀, z, hfz⟩
  · rw [hfe] at hi; simp at hi
  rw [List.concat_eq_append] at hfz
  have hz : pySpace z = false := by
    rw [hfz, List.getLast?_concat] at hlast
    simpa using hlast
  have hlen : fld.length = fld₀.length + 1 := by rw [hfz]; simp
  apply plusG_lit_fail_all
  intro j _ hjall
  by_cases hjlt : j < (fld.drop i).length
  · have hshape : (fld.drop i ++ ' ' :: tail).drop j = fld.drop (i + j) ++ ' ' :: tail := by
      rw [List.drop_append_of_le_length (le_of_lt hjlt), List.drop_drop]
    rw [hshape]
    refine stripCI_fail_in_field (w₀ :: ws) fld ' ' tail hocc hws (i + j) ?_
    rw [List.length_drop] at hjlt
    omega
  · exfalso
    push_neg at hjlt
    have hall_m := all_take_mono pySpace _ j (fld.drop i).length hjlt hjall
    rw [List.take_left] at hall_m
    have hzmem : z ∈ fld.drop i := by
      have hile : i ≤ fld₀.length := by omega
      have hidrop : fld.drop i = fld₀.drop i ++ [z] := by
        rw [hfz, List.drop_append_of_le_length hile]
      rw [hidrop]
      exact List.mem_append_right _ (List.mem_singleton.mpr rfl)
    have hzz := (List.all_eq_true.mp hall_m) z hzmem
    rw [hz] at hzz
    cases hzz

theorem field_look_cat_fail (k : List Char)
    (hlast : k.getLast?.all (fun c => !(pySpace c) && !(bulletCls c)) = true)
    (hocc : ciOccurs "Category:".data k = false)
    (tail : List Char) :
    ∀ i, i < k.length → ∀ f,
      mt f [Tok.starG pySpace, Tok.opt bulletCls, Tok.starG pySpace,
            Tok.lit "Category:".data] (k.drop i ++ '\n' :: tail) = none := by
  intro i hi f
  rcases List.eq_nil_or_concat k with hfe | ⟨k₀, z, hfz⟩
  · rw [hfe] at hi; simp at hi
  rw [List.concat_eq_append] at hfz
  have h2 : pySpace z = false ∧ bulletCls z = false := by
    rw [hfz, List.getLast?_concat] at hlast
    simpa using hlast
  have hz : (pySpace z || bulletCls z) = false := by simp [h2.1, h2.2]
  have hlen : k.length = k₀.length + 1 := by rw [hfz]; simp
  apply sg_opt_sg_lit_fail
  intro j hjall
  by_cases hjlt : j < (k.drop i).length
  · have hshape : (k.drop i ++ '\n' :: tail).drop j = k.drop (i + j) ++ '\n' :: tail := by
      rw [List.drop_append_of_le_length (le_of_lt hjlt), List.drop_drop]
    rw [hshape]
    refine stripCI_fail_in_field "Category:".data k '\n' tail hocc (by decide) (i + j) ?_
    rw [List.length_drop] at hjlt
    omega
  · exfalso
    push_neg at hjlt
    have hall_m := all_take_mono _ _ j (k.drop i).length hjlt hjall
    rw [List.take_left] at hall_m
    have hzmem : z ∈ k.drop i := by
      have hile : i ≤ k₀.length := by omega
      have hidrop : k.drop i = k₀.drop i ++ [z] := by
        rw [hfz, List.drop_append_of_le_length hile]
      rw [hidrop]
      exact List.mem_append_right _ (List.mem_singleton.mpr rfl)
    have hzz := (List.all_eq_true.mp hall_m) z hzmem
    simp only [hz] at hzz
    cases hzz

theorem renderEntry_stripCI_fail (w₀ : Char) (ws : List Char) (e : PHIReplacement)
    (hL1 : ("Category: ".data.all fun x => !(ciEq w₀ x)) = true)
    (hL2 : (" Original token: ".data.all fun x => !(ciEq w₀ x)) = true)
    (hL3 : (" Replacement: ".data.all fun x => !(ciEq w₀ x)) = true)
    (hL4 : (" Consistency key: ".data.all fun x => !(ciEq w₀ x)) = true)
    (hNl : ciEq w₀ '\n' = false)
    (hoc1 : ciOccurs (w₀ :: ws) e.category.data = false)
    (hoc2 : ciOccurs (w₀ :: ws) e.original_token.data = false)
    (hoc3 : ciOccurs (w₀ :: ws) e.replacement.data = false)
    (hoc4 : ciOccurs (w₀ :: ws) e.consistency_key.data = false)
    (hwsSp : (ws.all fun d => !(ciEq d ' ')) = true)
    (hwsNl : (ws.all fun d => !(ciEq d '\n')) = true) :
    ∀ (t : List Char) (i : Nat), i < (renderEntry e).length →
      (stripCI (w₀ :: ws) ((renderEntry e).drop i ++ t)).isSome = false := by
  intro t
  simp only [renderEntry, List.append_assoc]
  refine stripCI_fail_append _ _ _ _ ?_ ?_
  · intro i hi
    exact stripCI_fail_in_lit w₀ ws "Category: ".data hL1 i _ hi
  refine stripCI_fail_append _ _ _ _ ?_ ?_
  · intro i hi
    exact stripCI_fail_in_field (w₀ :: ws) e.category.data ' ' _ hoc1 hwsSp i hi
  refine stripCI_fail_append _ _ _ _ ?_ ?_
  · intro i hi
    exact stripCI_fail_in_lit w₀ ws " Original token: ".data hL2 i _ hi
  refine stripCI_fail_append _ _ _ _ ?_ ?_
  · intro i hi
    exact stripCI_fail_in_field (w₀ :: ws) e.original_token.data ' ' _ hoc2 hwsSp i hi
  refine stripCI_fail_append _ _ _ _ ?_ ?_
  · intro i hi
    exact stripCI_fail_in_lit w₀ ws " Replacement: ".data hL3 i _ hi
  refine stripCI_fail_append _ _ _ _ ?_ ?_
  · intro i hi
    exact stripCI_fail_in_field (w₀ :: ws) e.replacement.data ' ' _ hoc3 hwsSp i hi
  refine stripCI_fail_append _ _ _ _ ?_ ?_
  · intro i hi
    exact stripCI_fail_in_lit w₀ ws " Consistency key: ".data hL4 i _ hi
  refine stripCI_fail_append _ _ _ _ ?_ ?_
  · intro i hi
    exact stripCI_fail_in_field (w₀ :: ws) e.consistency_key.data '\n' _ hoc4 hwsNl i hi
  · intro i hi
    have hi0 : i = 0 := by
      simp at hi
      omega
    subst hi0
    show (stripCI (w₀ :: ws) ('\n' :: t)).isSome = false
    rw [stripCI_head_fail _ _ hNl]
    rfl

theorem entriesText_stripCI_fail (w₀ : Char) (ws : List Char) :
    ∀ (es : List PHIReplacement),
      (∀ e ∈ es, ∀ (t : List Char) (i : Nat), i < (renderEntry e).length →
        (stripCI (w₀ :: ws) ((renderEntry e).drop i ++ t)).isSome = false) →
      ∀ (t : List Char) (i : Nat), i < (entriesText es).length →
        (stripCI (w₀ :: ws) ((entriesText es).drop i ++ t)).isSome = false := by
  intro es
  induction es with
  | nil => intro _ t i hi; simp [entriesText] at hi
  | cons e es' ih =>
    intro hent t
    refine stripCI_fail_append (w₀ :: ws) (renderEntry e) (entriesText es') t ?_ ?_
    · intro i hi
      exact hent e (List.mem_cons_self e es') _ i hi
    · intro i hi
      exact ih (fun e' he' => hent e' (List.mem_cons_of_mem e he')) t i hi

theorem entryPattern_eq :
    entryPattern = Tok.opt bulletCls :: Tok.starG pySpace :: entryCore := rfl

theorem sg_pg_fail_spDashSp (C : Char) (hC : sepClass C = false) (rest : List Char)
    (r : List Tok) :
    ∀ f, mt f (Tok.starG sepClass :: Tok.plusG isNl :: r)
      (' ' :: '-' :: ' ' :: C :: rest) = none := by
  intro f
  apply starG_plusG_fail_all
  intro j hj
  by_cases h4 : 4 ≤ j
  · exfalso
    have h := all_take_mono sepClass _ j 4 h4 hj
    have ht : (' ' :: '-' :: ' ' :: C :: rest).take 4 = [' ', '-', ' ', C] := rfl
    rw [ht] at h
    simp [List.all_cons, hC] at h
  · push_neg at h4
    interval_cases j
    · rfl
    · rfl
    · rfl
    · show ((C :: rest).head?.all fun c => !(isNl c)) = true
      simp [isNl_false_of_sepClass_false C hC]

theorem sg_lit_digit_mismatch (d e : Char) (hde : ciEq d e = false)
    (hd : ciEq d ' ' = false) (he : pySpace e = false) (rest : List Char)
    (r : List Tok) :
    ∀ f, mt f (Tok.starG pySpace :: Tok.lit [d] :: r) (' ' :: e :: rest) = none := by
  intro f
  apply starG_lit_fail_all
  intro j hj
  by_cases h2 : 2 ≤ j
  · exfalso
    have h := all_take_mono pySpace _ j 2 h2 hj
    have ht : ((' ' :: e :: rest).take 2) = [' ', e] := rfl
    rw [ht] at h
    simp [List.all_cons, he] at h
  · push_neg at h2
    interval_cases j
    · show (stripCI [d] (' ' :: e :: rest)).isSome = false
      rw [stripCI_head_fail _ _ hd]
      rfl
    · show (stripCI [d] (e :: rest)).isSome = false
      rw [stripCI_head_fail _ _ hde]
      rfl

theorem sg_litd_sep_nl_fail (d : Char) (hdsp : pySpace d = false) (hd : ciEq d ' ' = false)
    (C : Char) (hC : sepClass C = false) (rest : List Char) (r : List Tok) :
    ∀ f, mt f (Tok.starG pySpace :: Tok.lit [d] :: Tok.starG sepClass ::
        Tok.plusG isNl :: r) (' ' :: d :: ' ' :: '-' :: ' ' :: C :: rest) = none := by
  have hlit : stripCI [d] (d :: (' ' :: '-' :: ' ' :: C :: rest)) =
      some (' ' :: '-' :: ' ' :: C :: rest) := by
    simp [stripCI, ciEq]
  refine mt_starG_fail_split pySpace _ ' ' _ (by decide) ?_ ?_
  · exact mt_starG_fail_stop pySpace _ d _ hdsp
      (mt_lit_fail_then [d] _ _ _ hlit (sg_pg_fail_spDashSp C hC rest r))
  · intro f'
    exact mt_lit_none f' _ (stripCI_head_fail _ _ hd)

theorem markerB1_fail_of_stripCI (f : Nat) (r : List Tok) (s : List Char)
    (hB : (stripCI "BLOCK".data s).isSome = false)
    (hP : (stripCI "PHI".data s).isSome = false) :
    mt f (Tok.alt [b1a, b1b] :: r) s = none := by
  cases f with
  | zero => rfl
  | succ g =>
    rw [mt_alt]
    simp only [List.foldr_cons, List.foldr_nil]
    have h1 : mt g (b1a ++ r) s = none := by
      have hsh : b1a ++ r =
          Tok.lit "BLOCK".data :: (Tok.starG pySpace :: Tok.lit "1".data :: r) := rfl
      rw [hsh]
      exact mt_lit_none g _ ((opt_isSome_false _).mp hB)
    have h2 : mt g (b1b ++ r) s = none := by
      have hsh : b1b ++ r =
          Tok.lit "PHI".data :: (Tok.plusG pySpace :: Tok.lit "REPLACEMENT".data ::
            Tok.plusG pySpace :: Tok.lit "LOG".data :: r) := rfl
      rw [hsh]
      exact mt_lit_none g _ ((opt_isSome_false _).mp hP)
    rw [h1, h2]
    rfl

theorem opt_sg_lit_nil_fail :
    ∀ f, mt f [Tok.opt bulletCls, Tok.starG pySpace, Tok.lit "Category:".data] [] = none := by
  intro f
  cases f with
  | zero => rfl
  | succ g =>
    rw [mt_opt_nil]
    exact sg_lit_nil_fail pySpace 'C' "ategory:".data [] g

theorem branch1_nil_fail :
    ∀ f, mt f [Tok.starG pySpace, Tok.opt bulletCls, Tok.starG pySpace,
        Tok.lit "Category:".data] [] = none := by
  intro f
  cases f with
  | zero => rfl
  | succ g =>
    rw [mt_starG_nil]
    exact opt_sg_lit_nil_fail g

theorem look_cat_nl_fail :
    ∀ f, mt f [Tok.starG pySpace, Tok.opt bulletCls, Tok.starG pySpace,
        Tok.lit "Category:".data] ['\n'] = none := by
  have hlitnl : ∀ f', mt f' [Tok.lit "Category:".data] ['\n'] = none := fun f' =>
    mt_lit_none f' _ (stripCI_head_fail _ _ (by decide))
  have hsg : ∀ f', mt f' [Tok.starG pySpace, Tok.lit "Category:".data] ['\n'] = none :=
    mt_starG_fail_split pySpace _ '\n' [] (by decide)
      (sg_lit_nil_fail pySpace 'C' "ategory:".data [])
      hlitnl
  have hopt : ∀ f', mt f' [Tok.opt bulletCls, Tok.starG pySpace,
      Tok.lit "Category:".data] ['\n'] = none :=
    mt_opt_fail bulletCls _ '\n' []
      (sg_lit_nil_fail pySpace 'C' "ategory:".data [])
      hsg
  exact mt_starG_fail_split pySpace _ '\n' [] (by decide) branch1_nil_fail hopt

theorem look_cat_fail_nl :
    ∀ f, mt f [Tok.look [[Tok.starG pySpace, Tok.opt bulletCls, Tok.starG pySpace,
        Tok.lit "Category:".data], [Tok.endA]]] ['\n'] = none :=
  mt_look_none2 _ _ [] ['\n'] look_cat_nl_fail (mt_endA_cons_none [] '\n' [])

theorem look_cat_fail_inside (k : List Char)
    (hlast : k.getLast?.all (fun c => !(pySpace c) && !(bulletCls c)) = true)
    (hocc : ciOccurs "Category:".data k = false)
    (tail : List Char) :
    ∀ i, i < k.length → ∀ f,
      mt f [Tok.look [[Tok.starG pySpace, Tok.opt bulletCls, Tok.starG pySpace,
        Tok.lit "Category:".data], [Tok.endA]]] (k.drop i ++ '\n' :: tail) = none := by
  intro i hi f
  have hA := fun f' => field_look_cat_fail k hlast hocc tail i hi f'
  cases hd : k.drop i with
  | nil =>
    have hlen := congrArg List.length hd
    simp [List.length_drop] at hlen
    omega
  | cons x xs =>
    rw [hd] at hA
    show mt f (Tok.look _ :: []) (x :: (xs ++ '\n' :: tail)) = none
    exact mt_look_none2 _ _ [] _ hA (mt_endA_cons_none [] x _) f

theorem entry_nil_none : ∀ f, mt f entryPattern [] = none := by
  intro f
  cases f with
  | zero => rfl
  | succ g =>
    rw [entryPattern_eq, mt_opt_nil]
    exact sg_lit_nil_fail pySpace 'C' "ategory:".data _ g

theorem group4_mid (k : List Char) (hne : k ≠ [])
    (hlast : k.getLast?.all (fun c => !(pySpace c) && !(bulletCls c)) = true)
    (hocc : ciOccurs "Category:".data k = false)
    (x : Char) (E₂ rest'' : List Char)
    (hx : pySpace x = false) (hxb : bulletCls x = false)
    (hstrip : stripCI "Category:".data (x :: E₂) = some rest'') :
    ∀ f, k.length + 10 ≤ f →
      mt f [Tok.plusL anyCh 4, Tok.look [[Tok.starG pySpace, Tok.opt bulletCls,
          Tok.starG pySpace, Tok.lit "Category:".data], [Tok.endA]]]
        (k ++ '\n' :: x :: E₂) = some ([(4, k)], '\n' :: x :: E₂) := by
  have hlit : ∀ f, 2 ≤ f →
      mt f [Tok.lit "Category:".data] (x :: E₂) = some (([], rest'') : Caps × List Char) :=
    mt_lit_step "Category:".data [] (x :: E₂) rest'' ([], rest'') 1 hstrip
      (mt_nil_step rest'')
  have hsg2 := mt_starG_skip_step pySpace [Tok.lit "Category:".data] x E₂ ([], rest'') 2
    hx hlit
  have hopt := mt_opt_skip_step bulletCls [Tok.starG pySpace, Tok.lit "Category:".data]
    x E₂ ([], rest'') 3 hxb hsg2
  have hbr := mt_starG_one_step pySpace [Tok.opt bulletCls, Tok.starG pySpace,
    Tok.lit "Category:".data] '\n' x E₂ ([], rest'') 4 (by decide) hx hopt
  have hend := mt_look_step_first
    [Tok.starG pySpace, Tok.opt bulletCls, Tok.starG pySpace, Tok.lit "Category:".data]
    [[Tok.endA]] [] ('\n' :: x :: E₂) ([], rest'') ([], '\n' :: x :: E₂) 6 1 hbr
    (mt_nil_step ('\n' :: x :: E₂))
  intro f hf
  exact plusL_capture anyCh 4 _ ('\n' :: x :: E₂) [] ('\n' :: x :: E₂) 8 hend k f hne
    (fun c _ => rfl)
    (fun i f' hi => look_cat_fail_inside k hlast hocc (x :: E₂) i hi f')
    (by omega)

theorem group4_last (k : List Char)
    (hlast : k.getLast?.all (fun c => !(pySpace c) && !(bulletCls c)) = true)
    (hocc : ciOccurs "Category:".data k = false) :
    ∀ f, k.length + 10 ≤ f →
      mt f [Tok.plusL anyCh 4, Tok.look [[Tok.starG pySpace, Tok.opt bulletCls,
          Tok.starG pySpace, Tok.lit "Category:".data], [Tok.endA]]]
        (k ++ ['\n']) = some ([(4, k ++ ['\n'])], []) := by
  have hB : ∀ f, 2 ≤ f → mt f [Tok.endA] [] = some (([], []) : Caps × List Char) :=
    mt_endA_nil_step [] ([], []) 1 (mt_nil_step [])
  have hend := mt_look_step_second
    [Tok.starG pySpace, Tok.opt bulletCls, Tok.starG pySpace, Tok.lit "Category:".data]
    [Tok.endA] [] [] ([], []) ([], []) 2 1 branch1_nil_fail hB (mt_nil_step [])
  have hfail : ∀ (i f' : Nat), i < (k ++ ['\n']).length →
      mt f' [Tok.look [[Tok.starG pySpace, Tok.opt bulletCls, Tok.starG pySpace,
        Tok.lit "Category:".data], [Tok.endA]]] ((k ++ ['\n']).drop i ++ []) = none := by
    intro i f' hi
    rw [List.append_nil]
    by_cases hik : i < k.length
    · rw [List.drop_append_of_le_length (le_of_lt hik)]
      exact look_cat_fail_inside k hlast hocc [] i hik f'
    · have hik2 : i = k.length := by
        simp at hi
        omega
      subst hik2
      have hd : (k ++ ['\n']).drop k.length = ['\n'] := by
        rw [List.drop_append_of_le_length (le_refl _), List.drop_length]
        rfl
      rw [hd]
      exact look_cat_fail_nl f'
  intro f hf
  have hres := plusL_capture anyCh 4 _ [] [] [] 4 hend (k ++ ['\n']) f
    (by simp) (fun c _ => rfl) hfail (by simp; omega)
  rwa [List.append_nil] at hres

theorem entry_core_chain (cf ot rp : List Char)
    (hcf1 : cf ≠ []) (hcfh : cf.head?.all (fun c => !(pySpace c)) = true)
    (hcfl : cf.getLast?.all (fun c => !(pySpace c)) = true)
    (hcfo : ciOccurs "Original".data cf = false)
    (hot1 : ot ≠ []) (hoth : ot.head?.all (fun c => !(pySpace c)) = true)
    (hotl : ot.getLast?.all (fun c => !(pySpace c)) = true)
    (hotr : ciOccurs "Replacement:".data ot = false)
    (hrp1 : rp ≠ []) (hrph : rp.head?.all (fun c => !(pySpace c)) = true)
    (hrpl : rp.getLast?.all (fun c => !(pySpace c)) = true)
    (hrpc : ciOccurs "Consistency".data rp = false)
    (y : Char) (yT : List Char) (hy : pySpace y = false)
    (caps4 : Caps) (rem4 : List Char) (b4 : Nat)
    (H4 : ∀ f, b4 ≤ f →
      mt f [Tok.plusL anyCh 4, Tok.look [[Tok.starG pySpace, Tok.opt bulletCls,
        Tok.starG pySpace, Tok.lit "Category:".data], [Tok.endA]]] (y :: yT) =
        some (caps4, rem4)) :
    ∀ f, cf.length + ot.length + rp.length + b4 + 30 ≤ f →
      mt f entryCore
        ("Category: ".data ++ (cf ++ (" Original token: ".data ++ (ot ++
          (" Replacement: ".data ++ (rp ++ (" Consistency key: ".data ++ (y :: yT)))))))) =
        some ((1, cf) :: (2, ot) :: (3, rp) :: caps4, rem4) := by
  obtain ⟨c0, cf', rfl⟩ := List.exists_cons_of_ne_nil hcf1
  obtain ⟨o0, ot', rfl⟩ := List.exists_cons_of_ne_nil hot1
  obtain ⟨r0, rp', rfl⟩ := List.exists_cons_of_ne_nil hrp1
  have hc0 : pySpace c0 = false := by simpa using hcfh
  have ho0 : pySpace o0 = false := by simpa using hoth
  have hr0 : pySpace r0 = false := by simpa using hrph
  have st18 := mt_starG_one_step pySpace
    [Tok.plusL anyCh 4, Tok.look [[Tok.starG pySpace, Tok.opt bulletCls,
      Tok.starG pySpace, Tok.lit "Category:".data], [Tok.endA]]]
    ' ' y yT (caps4, rem4) b4 (by decide) hy H4
  have st17 := mt_lit_step "key:".data _ ("key: ".data ++ (y :: yT)) _ _ (b4 + 2)
    rfl st18
  have st16 := mt_plusG_one_step pySpace _ ' ' 'k' _ _ (b4 + 3) (by decide) (by decide) st17
  have st15 := mt_lit_step "Consistency".data _
    ("Consistency key: ".data ++ (y :: yT)) _ _ (b4 + 5) rfl st16
  have st14 := mt_plusG_one_step pySpace _ ' ' 'C' _ _ (b4 + 6) (by decide) (by decide) st15
  have st13 := fun f (hf : (r0 :: rp').length + (b4 + 8) + 1 ≤ f) =>
    plusL_capture anyCh 3 _ _ caps4 rem4 (b4 + 8) st14 (r0 :: rp') f
      (by simp) (fun c _ => rfl)
      (fun i f' hi => field_gap_lit_fail 'C' "onsistency".data (r0 :: rp') hrpl (by decide)
        hrpc ("Consistency key: ".data ++ (y :: yT)) _ i hi f') hf
  have st12 := mt_starG_one_step pySpace _ ' ' r0 _ _ ((r0 :: rp').length + (b4 + 8) + 1)
    (by decide) hr0 st13
  have st11 := mt_lit_step "Replacement:".data _
    ("Replacement: ".data ++ ((r0 :: rp') ++ (" Consistency key: ".data ++ (y :: yT))))
    _ _ ((r0 :: rp').length + (b4 + 8) + 3) rfl st12
  have st10 := mt_plusG_one_step pySpace _ ' ' 'R' _ _ ((r0 :: rp').length + (b4 + 8) + 4)
    (by decide) (by decide) st11
  have st9 := fun f
      (hf : (o0 :: ot').length + ((r0 :: rp').length + (b4 + 8) + 6) + 1 ≤ f) =>
    plusL_capture anyCh 2 _ _ ((3, r0 :: rp') :: caps4) rem4
      ((r0 :: rp').length + (b4 + 8) + 6) st10 (o0 :: ot') f
      (by simp) (fun c _ => rfl)
      (fun i f' hi => field_gap_lit_fail 'R' "eplacement:".data (o0 :: ot') hotl (by decide)
        hotr ("Replacement: ".data ++ ((r0 :: rp') ++
          (" Consistency key: ".data ++ (y :: yT)))) _ i hi f') hf
  have st8 := mt_starG_one_step pySpace _ ' ' o0 _ _
    ((o0 :: ot').length + ((r0 :: rp').length + (b4 + 8) + 6) + 1) (by decide) ho0 st9
  have st7 := mt_lit_step "token:".data _
    ("token: ".data ++ ((o0 :: ot') ++ (" Replacement: ".data ++ ((r0 :: rp') ++
      (" Consistency key: ".data ++ (y :: yT))))))
    _ _ ((o0 :: ot').length + ((r0 :: rp').length + (b4 + 8) + 6) + 3) rfl st8
  have st6 := mt_plusG_one_step pySpace _ ' ' 't' _ _
    ((o0 :: ot').length + ((r0 :: rp').length + (b4 + 8) + 6) + 4)
    (by decide) (by decide) st7
  have st5 := mt_lit_step "Original".data _
    ("Original token: ".data ++ ((o0 :: ot') ++ (" Replacement: ".data ++ ((r0 :: rp') ++
      (" Consistency key: ".data ++ (y :: yT))))))
    _ _ ((o0 :: ot').length + ((r0 :: rp').length + (b4 + 8) + 6) + 6) rfl st6
  have st4 := mt_plusG_one_step pySpace _ ' ' 'O' _ _
    ((o0 :: ot').length + ((r0 :: rp').length + (b4 + 8) + 6) + 7)
    (by decide) (by decide) st5
  have st3 := fun f
      (hf : (c0 :: cf').length +
        ((o0 :: ot').length + ((r0 :: rp').length + (b4 + 8) + 6) + 9) + 1 ≤ f) =>
    plusL_capture anyCh 1 _ _ ((2, o0 :: ot') :: (3, r0 :: rp') :: caps4) rem4
      ((o0 :: ot').length + ((r0 :: rp').length + (b4 + 8) + 6) + 9) st4 (c0 :: cf') f
      (by simp) (fun c _ => rfl)
      (fun i f' hi => field_gap_lit_fail 'O' "riginal".data (c0 :: cf') hcfl (by decide)
        hcfo ("Original token: ".data ++ ((o0 :: ot') ++ (" Replacement: ".data ++
          ((r0 :: rp') ++ (" Consistency key: ".data ++ (y :: yT)))))) _ i hi f') hf
  have st2 := mt_starG_one_step pySpace _ ' ' c0 _ _
    ((c0 :: cf').length +
      ((o0 :: ot').length + ((r0 :: rp').length + (b4 + 8) + 6) + 9) + 1)
    (by decide) hc0 st3
  have st1 := mt_lit_step "Category:".data _
    ("Category: ".data ++ ((c0 :: cf') ++ (" Original token: ".data ++ ((o0 :: ot') ++
      (" Replacement: ".data ++ ((r0 :: rp') ++
        (" Consistency key: ".data ++ (y :: yT))))))))
    _ _ ((c0 :: cf').length +
      ((o0 :: ot').length + ((r0 :: rp').length + (b4 + 8) + 6) + 9) + 3) rfl st2
  intro f hf
  exact st1 f (by omega)

theorem renderEntry_length (e : PHIReplacement) :
    (renderEntry e).length = e.category.data.length + e.original_token.data.length +
      e.replacement.data.length + e.consistency_key.data.length + 60 := by
  simp only [renderEntry, List.length_append, List.length_cons, List.length_nil]
  omega

theorem wfEntry_parts (e : PHIReplacement) (h : wfEntry e = true) :
    wfField e.category.data = true ∧ wfField e.original_token.data = true ∧
    wfField e.replacement.data = true ∧ wfField e.consistency_key.data = true := by
  unfold wfEntry at h
  simp only [Bool.and_eq_true] at h
  exact ⟨h.1.1.1, h.1.1.2, h.1.2, h.2⟩

theorem wfField_facts (s : List Char) (h : wfField s = true) :
    s ≠ [] ∧ s.head?.all (fun c => !(pySpace c)) = true ∧
      s.getLast?.all (fun c => !(pySpace c)) = true ∧
      s.getLast?.all (fun c => !(pySpace c) && !(bulletCls c)) = true := by
  obtain ⟨hne, _, hh, hl, _⟩ := wfField_parts s h
  exact ⟨hne, hh, option_all_and_left _ _ _ hl, hl⟩

theorem wfField_ban (s : List Char) (h : wfField s = true) (w : String)
    (hw : w ∈ (["BLOCK", "DE", "Category:", "Original", "Replacement:",
      "Consistency"] : List String)) :
    ciOccurs w.data s = false := by
  obtain ⟨_, _, _, _, hb⟩ := wfField_parts s h
  exact hb w hw

theorem entry_core_mid (e : PHIReplacement) (hwf : wfEntry e = true)
    (x : Char) (E₂ rest'' : List Char) (hx : pySpace x = false) (hxb : bulletCls x = false)
    (hstrip : stripCI "Category:".data (x :: E₂) = some rest'') :
    ∀ f, (renderEntry e).length + 35 ≤ f →
      mt f entryCore
        ("Category: ".data ++ (e.category.data ++ (" Original token: ".data ++
          (e.original_token.data ++ (" Replacement: ".data ++ (e.replacement.data ++
          (" Consistency key: ".data ++ (e.consistency_key.data ++
            ('\n' :: x :: E₂))))))))) =
        some ([(1, e.category.data), (2, e.original_token.data), (3, e.replacement.data),
          (4, e.consistency_key.data)], '\n' :: x :: E₂) := by
  obtain ⟨hc, ho, hr, hk⟩ := wfEntry_parts e hwf
  obtain ⟨hc1, hch, hcl, _⟩ := wfField_facts _ hc
  obtain ⟨ho1, hoh, hol, _⟩ := wfField_facts _ ho
  obtain ⟨hr1, hrh, hrl, _⟩ := wfField_facts _ hr
  obtain ⟨hk1, hkh, hkl, hklb⟩ := wfField_facts _ hk
  obtain ⟨k0, k', hkk⟩ := List.exists_cons_of_ne_nil hk1
  have hk0 : pySpace k0 = false := by rw [hkk] at hkh; simpa using hkh
  have H4 := group4_mid e.consistency_key.data hk1 hklb
    (wfField_ban _ hk "Category:" (by simp)) x E₂ rest'' hx hxb hstrip
  rw [hkk] at H4
  have hchain := entry_core_chain e.category.data e.original_token.data e.replacement.data
    hc1 hch hcl (wfField_ban _ hc "Original" (by simp))
    ho1 hoh hol (wfField_ban _ ho "Replacement:" (by simp))
    hr1 hrh hrl (wfField_ban _ hr "Consistency" (by simp))
    k0 (k' ++ '\n' :: x :: E₂) hk0
    [(4, k0 :: k')] ('\n' :: x :: E₂) ((k0 :: k').length + 10) H4
  intro f hf
  rw [renderEntry_length e, hkk] at hf
  rw [hkk]
  exact hchain f (by omega)

theorem entry_core_last (e : PHIReplacement) (hwf : wfEntry e = true) :
    ∀ f, (renderEntry e).length + 35 ≤ f →
      mt f entryCore
        ("Category: ".data ++ (e.category.data ++ (" Original token: ".data ++
          (e.original_token.data ++ (" Replacement: ".data ++ (e.replacement.data ++
          (" Consistency key: ".data ++ (e.consistency_key.data ++ ['\n'])))))))) =
        some ([(1, e.category.data), (2, e.original_token.data), (3, e.replacement.data),
          (4, e.consistency_key.data ++ ['\n'])], []) := by
  obtain ⟨hc, ho, hr, hk⟩ := wfEntry_parts e hwf
  obtain ⟨hc1, hch, hcl, _⟩ := wfField_facts _ hc
  obtain ⟨ho1, hoh, hol, _⟩ := wfField_facts _ ho
  obtain ⟨hr1, hrh, hrl, _⟩ := wfField_facts _ hr
  obtain ⟨hk1, hkh, hkl, hklb⟩ := wfField_facts _ hk
  obtain ⟨k0, k', hkk⟩ := List.exists_cons_of_ne_nil hk1
  have hk0 : pySpace k0 = false := by rw [hkk] at hkh; simpa using hkh
  have H4 := group4_last e.consistency_key.data hklb
    (wfField_ban _ hk "Category:" (by simp))
  rw [hkk] at H4
  have hchain := entry_core_chain e.category.data e.original_token.data e.replacement.data
    hc1 hch hcl (wfField_ban _ hc "Original" (by simp))
    ho1 hoh hol (wfField_ban _ ho "Replacement:" (by simp))
    hr1 hrh hrl (wfField_ban _ hr "Consistency" (by simp))
    k0 (k' ++ ['\n']) hk0
    [(4, (k0 :: k') ++ ['\n'])] [] ((k0 :: k').length + 10) H4
  intro f hf
  rw [renderEntry_length e, hkk] at hf
  rw [hkk]
  exact hchain f (by omega)

theorem entry_mt_mid (e : PHIReplacement) (hwf : wfEntry e = true)
    (x : Char) (E₂ rest'' : List Char) (hx : pySpace x = false) (hxb : bulletCls x = false)
    (hstrip : stripCI "Category:".data (x :: E₂) = some rest'') :
    ∀ f, (renderEntry e).length + 40 ≤ f →
      mt f entryPattern (renderEntry e ++ (x :: E₂)) =
        some ([(1, e.category.data), (2, e.original_token.data), (3, e.replacement.data),
          (4, e.consistency_key.data)], '\n' :: x :: E₂) := by
  have hcore := entry_core_mid e hwf x E₂ rest'' hx hxb hstrip
  have hsg := mt_starG_skip_step pySpace entryCore 'C' _ _
    ((renderEntry e).length + 35) (by decide) hcore
  have hopt := mt_opt_skip_step bulletCls (Tok.starG pySpace :: entryCore) 'C' _ _
    ((renderEntry e).length + 36) (by decide) hsg
  intro f hf
  rw [entryPattern_eq]
  simp only [renderEntry, List.append_assoc]
  exact hopt f (by omega)

theorem entry_mt_mid_nl (e : PHIReplacement) (hwf : wfEntry e = true)
    (x : Char) (E₂ rest'' : List Char) (hx : pySpace x = false) (hxb : bulletCls x = false)
    (hstrip : stripCI "Category:".data (x :: E₂) = some rest'') :
    ∀ f, (renderEntry e).length + 40 ≤ f →
      mt f entryPattern ('\n' :: (renderEntry e ++ (x :: E₂))) =
        some ([(1, e.category.data), (2, e.original_token.data), (3, e.replacement.data),
          (4, e.consistency_key.data)], '\n' :: x :: E₂) := by
  have hcore := entry_core_mid e hwf x E₂ rest'' hx hxb hstrip
  have hsg := mt_starG_one_step pySpace entryCore '\n' 'C' _ _
    ((renderEntry e).length + 35) (by decide) (by decide) hcore
  have hopt := mt_opt_skip_step bulletCls (Tok.starG pySpace :: entryCore) '\n' _ _
    ((renderEntry e).length + 37) (by decide) hsg
  intro f hf
  rw [entryPattern_eq]
  simp only [renderEntry, List.append_assoc]
  exact hopt f (by omega)

theorem entry_mt_last (e : PHIReplacement) (hwf : wfEntry e = true) :
    ∀ f, (renderEntry e).length + 40 ≤ f →
      mt f entryPattern (renderEntry e) =
        some ([(1, e.category.data), (2, e.original_token.data), (3, e.replacement.data),
          (4, e.consistency_key.data ++ ['\n'])], []) := by
  have hcore := entry_core_last e hwf
  have hsg := mt_starG_skip_step pySpace entryCore 'C' _ _
    ((renderEntry e).length + 35) (by decide) hcore
  have hopt := mt_opt_skip_step bulletCls (Tok.starG pySpace :: entryCore) 'C' _ _
    ((renderEntry e).length + 36) (by decide) hsg
  intro f hf
  rw [entryPattern_eq]
  simp only [renderEntry, List.append_assoc]
  exact hopt f (by omega)

theorem entry_mt_last_nl (e : PHIReplacement) (hwf : wfEntry e = true) :
    ∀ f, (renderEntry e).length + 40 ≤ f →
      mt f entryPattern ('\n' :: renderEntry e) =
        some ([(1, e.category.data), (2, e.original_token.data), (3, e.replacement.data),
          (4, e.consistency_key.data ++ ['\n'])], []) := by
  have hcore := entry_core_last e hwf
  have hsg := mt_starG_one_step pySpace entryCore '\n' 'C' _ _
    ((renderEntry e).length + 35) (by decide) (by decide) hcore
  have hopt := mt_opt_skip_step bulletCls (Tok.starG pySpace :: entryCore) '\n' _ _
    ((renderEntry e).length + 37) (by decide) hsg
  intro f hf
  rw [entryPattern_eq]
  simp only [renderEntry, List.append_assoc]
  exact hopt f (by omega)

theorem findAllGo_succ (fuel : Nat) (toks : List Tok) (iter : Nat) (s : List Char) :
    findAllGo fuel toks (iter + 1) s =
      (match searchAcc fuel toks [] s with
       | none => []
       | some (pre, caps, rem) =>
         if rem.length + pre.length < s.length then caps :: findAllGo fuel toks iter rem
         else [caps]) := rfl

theorem findAllGo_step_some (fuel : Nat) (toks : List Tok) (iter : Nat)
    (s pre rem : List Char) (caps : Caps)
    (h : searchAcc fuel toks [] s = some (pre, caps, rem))
    (hlt : rem.length + pre.length < s.length) :
    findAllGo fuel toks (iter + 1) s = caps :: findAllGo fuel toks iter rem := by
  rw [findAllGo_succ, h]
  show (if rem.length + pre.length < s.length then caps :: findAllGo fuel toks iter rem
    else [caps]) = caps :: findAllGo fuel toks iter rem
  rw [if_pos hlt]

theorem findAllGo_nil (fuel : Nat) : ∀ iter, 1 ≤ iter →
    findAllGo fuel entryPattern iter [] = [] := by
  intro iter hiter
  obtain ⟨it, rfl⟩ : ∃ it, iter = it + 1 := ⟨iter - 1, by omega⟩
  have hs : searchAcc fuel entryPattern [] ([] : List Char) = none := by
    rw [searchAcc_nil, entry_nil_none fuel]
  rw [findAllGo_succ, hs]

theorem mkEntry_mid (e : PHIReplacement) (hwf : wfEntry e = true) :
    mkEntry [(1, e.category.data), (2, e.original_token.data), (3, e.replacement.data),
      (4, e.consistency_key.data)] = e := by
  obtain ⟨hc, ho, hr, hk⟩ := wfEntry_parts e hwf
  obtain ⟨_, hch, hcl, _⟩ := wfField_facts _ hc
  obtain ⟨_, hoh, hol, _⟩ := wfField_facts _ ho
  obtain ⟨_, hrh, hrl, _⟩ := wfField_facts _ hr
  obtain ⟨_, hkh, hkl, _⟩ := wfField_facts _ hk
  have p1 : pyStrip e.category.data = e.category.data := pyStrip_eq_self _ hch hcl
  have p2 : pyStrip e.original_token.data = e.original_token.data :=
    pyStrip_eq_self _ hoh hol
  have p3 : pyStrip e.replacement.data = e.replacement.data := pyStrip_eq_self _ hrh hrl
  have p4 : pyStrip e.consistency_key.data = e.consistency_key.data :=
    pyStrip_eq_self _ hkh hkl
  unfold mkEntry
  rw [show capGet [(1, e.category.data), (2, e.original_token.data),
      (3, e.replacement.data), (4, e.consistency_key.data)] 1 = e.category.data from rfl,
    show capGet [(1, e.category.data), (2, e.original_token.data),
      (3, e.replacement.data), (4, e.consistency_key.data)] 2 =
        e.original_token.data from rfl,
    show capGet [(1, e.category.data), (2, e.original_token.data),
      (3, e.replacement.data), (4, e.consistency_key.data)] 3 = e.replacement.data from rfl,
    show capGet [(1, e.category.data), (2, e.original_token.data),
      (3, e.replacement.data), (4, e.consistency_key.data)] 4 =
        e.consistency_key.data from rfl,
    p1, p2, p3, p4]

theorem mkEntry_last (e : PHIReplacement) (hwf : wfEntry e = true) :
    mkEntry [(1, e.category.data), (2, e.original_token.data), (3, e.replacement.data),
      (4, e.consistency_key.data ++ ['\n'])] = e := by
  obtain ⟨hc, ho, hr, hk⟩ := wfEntry_parts e hwf
  obtain ⟨_, hch, hcl, _⟩ := wfField_facts _ hc
  obtain ⟨_, hoh, hol, _⟩ := wfField_facts _ ho
  obtain ⟨_, hrh, hrl, _⟩ := wfField_facts _ hr
  obtain ⟨hk1, hkh, hkl, _⟩ := wfField_facts _ hk
  have p1 : pyStrip e.category.data = e.category.data := pyStrip_eq_self _ hch hcl
  have p2 : pyStrip e.original_token.data = e.original_token.data :=
    pyStrip_eq_self _ hoh hol
  have p3 : pyStrip e.replacement.data = e.replacement.data := pyStrip_eq_self _ hrh hrl
  have p4 : pyStrip (e.consistency_key.data ++ ['\n']) = e.consistency_key.data :=
    pyStrip_append_nl _ hk1 hkh hkl
  unfold mkEntry
  rw [show capGet [(1, e.category.data), (2, e.original_token.data),
      (3, e.replacement.data), (4, e.consistency_key.data ++ ['\n'])] 1 =
        e.category.data from rfl,
    show capGet [(1, e.category.data), (2, e.original_token.data),
      (3, e.replacement.data), (4, e.consistency_key.data ++ ['\n'])] 2 =
        e.original_token.data from rfl,
    show capGet [(1, e.category.data), (2, e.original_token.data),
      (3, e.replacement.data), (4, e.consistency_key.data ++ ['\n'])] 3 =
        e.replacement.data from rfl,
    show capGet [(1, e.category.data), (2, e.original_token.data),
      (3, e.replacement.data), (4, e.consistency_key.data ++ ['\n'])] 4 =
        e.consistency_key.data ++ ['\n'] from rfl,
    p1, p2, p3, p4]

theorem renderEntry_append_shape (e' : PHIReplacement) (Z : List Char) :
    ∃ X rest, renderEntry e' ++ Z = 'C' :: X ∧
      stripCI "Category:".data ('C' :: X) = some rest := by
  refine ⟨"ategory: ".data ++ (e'.category.data ++ (" Original token: ".data ++
      (e'.original_token.data ++ (" Replacement: ".data ++ (e'.replacement.data ++
        (" Consistency key: ".data ++ (e'.consistency_key.data ++ (['\n'] ++ Z)))))))),
    ' ' :: (e'.category.data ++ (" Original token: ".data ++
      (e'.original_token.data ++ (" Replacement: ".data ++ (e'.replacement.data ++
        (" Consistency key: ".data ++ (e'.consistency_key.data ++ (['\n'] ++ Z)))))))),
    ?_, ?_⟩
  · simp only [renderEntry, List.append_assoc]
    rfl
  · rfl

theorem findAllGo_entries :
    ∀ (es : List PHIReplacement), (∀ e ∈ es, wfEntry e = true) →
      ∀ (fuel iter : Nat),
        (entriesText es).length + 400 ≤ fuel →
        es.length + 1 ≤ iter →
        ((findAllGo fuel entryPattern iter (entriesText es)).map mkEntry = es ∧
          (es ≠ [] →
            (findAllGo fuel entryPattern iter ('\n' :: entriesText es)).map mkEntry = es)) := by
  intro es
  induction es with
  | nil =>
    intro _ fuel iter hfuel hiter
    constructor
    · have h0 : entriesText [] = ([] : List Char) := rfl
      rw [h0, findAllGo_nil fuel iter (by omega)]
      rfl
    · intro h
      exact absurd rfl h
  | cons e es' ih =>
    intro hwf fuel iter hfuel hiter
    obtain ⟨it, rfl⟩ : ∃ it, iter = it + 1 := ⟨iter - 1, by omega⟩
    have hwe : wfEntry e = true := hwf e (List.mem_cons_self e es')
    have hwf' : ∀ x ∈ es', wfEntry x = true := fun x hx => hwf x (List.mem_cons_of_mem e hx)
    have hlenE : (entriesText (e :: es')).length =
        (renderEntry e).length + (entriesText es').length := by
      simp [entriesText]
    have hreL := renderEntry_length e
    cases es' with
    | nil =>
      have hE : entriesText (e :: ([] : List PHIReplacement)) = renderEntry e := by
        simp [entriesText]
      rw [hE] at hfuel
      have hit : 1 ≤ it := by
        simp at hiter
        omega
      constructor
      · rw [hE]
        have hsearch : searchAcc fuel entryPattern [] (renderEntry e) =
            some ([], [(1, e.category.data), (2, e.original_token.data),
              (3, e.replacement.data), (4, e.consistency_key.data ++ ['\n'])], []) :=
          searchAcc_found fuel entryPattern [] _ _ _ (entry_mt_last e hwe fuel (by omega))
        rw [findAllGo_step_some fuel entryPattern it _ [] [] _ hsearch (by simp; omega),
          findAllGo_nil fuel it hit]
        simp [mkEntry_last e hwe]
      · intro _
        rw [hE]
        have hsearch : searchAcc fuel entryPattern [] ('\n' :: renderEntry e) =
            some ([], [(1, e.category.data), (2, e.original_token.data),
              (3, e.replacement.data), (4, e.consistency_key.data ++ ['\n'])], []) :=
          searchAcc_found fuel entryPattern [] _ _ _
            (entry_mt_last_nl e hwe fuel (by omega))
        rw [findAllGo_step_some fuel entryPattern it _ [] [] _ hsearch (by simp),
          findAllGo_nil fuel it hit]
        simp [mkEntry_last e hwe]
    | cons e2 es'' =>
      obtain ⟨X, rest, hshape, hstrip⟩ := renderEntry_append_shape e2 (entriesText es'')
      have hE2 : entriesText (e2 :: es'') = 'C' :: X := hshape
      have hEfull : entriesText (e :: e2 :: es'') = renderEntry e ++ ('C' :: X) := by
        show renderEntry e ++ entriesText (e2 :: es'') = _
        rw [hE2]
      have hfuel2 : (entriesText (e2 :: es'')).length + 400 ≤ fuel := by
        rw [hlenE] at hfuel
        omega
      have hiter2 : (e2 :: es'').length + 1 ≤ it := by
        simp at hiter ⊢
        omega
      have hih := ih hwf' fuel it hfuel2 hiter2
      have hfbound : (renderEntry e).length + 40 ≤ fuel := by
        rw [hlenE] at hfuel
        omega
      have hXlen : (entriesText (e2 :: es'')).length = ('C' :: X).length := by rw [hE2]
      constructor
      · rw [hEfull]
        have hsearch : searchAcc fuel entryPattern [] (renderEntry e ++ ('C' :: X)) =
            some ([], [(1, e.category.data), (2, e.original_token.data),
              (3, e.replacement.data), (4, e.consistency_key.data)], '\n' :: 'C' :: X) :=
          searchAcc_found fuel entryPattern [] _ _ _
            (entry_mt_mid e hwe 'C' X rest (by decide) (by decide) hstrip fuel hfbound)
        rw [findAllGo_step_some fuel entryPattern it _ [] ('\n' :: 'C' :: X) _ hsearch
          (by simp; omega)]
        have hnl := hih.2 (by simp)
        rw [hE2] at hnl
        simp only [List.map_cons]
        rw [mkEntry_mid e hwe, hnl]
      · intro _
        rw [hEfull]
        have hsearch : searchAcc fuel entryPattern []
            ('\n' :: (renderEntry e ++ ('C' :: X))) =
            some ([], [(1, e.category.data), (2, e.original_token.data),
              (3, e.replacement.data), (4, e.consistency_key.data)], '\n' :: 'C' :: X) :=
          searchAcc_found fuel entryPattern [] _ _ _
            (entry_mt_mid_nl e hwe 'C' X rest (by decide) (by decide) hstrip fuel hfbound)
        rw [findAllGo_step_some fuel entryPattern it _ [] ('\n' :: 'C' :: X) _ hsearch
          (by simp; omega)]
        have hnl := hih.2 (by simp)
        rw [hE2] at hnl
        simp only [List.map_cons]
        rw [mkEntry_mid e hwe, hnl]

theorem doc_fail_H1_0 (R : List Char) :
    ∀ f, mt f docPattern ("BLOCK 1 - PHI REPLACEMENT LOG\n".data ++ R) = none := by
  have hA : ∀ f, mt f (b2a ++ [Tok.starG sepClass, Tok.plusG isNl, Tok.plusL anyCh 1,
      Tok.alt [[Tok.lit "\n\n---".data], [Tok.lit "\n\nNote:".data], [Tok.endA]]])
      ("BLOCK 1 - PHI REPLACEMENT LOG\n".data ++ R) = none := by
    intro f
    refine mt_lit_fail_then "BLOCK".data _
      ("BLOCK 1 - PHI REPLACEMENT LOG\n".data ++ R)
      (" 1 - PHI REPLACEMENT LOG\n".data ++ R) rfl ?_ f
    exact sg_lit_digit_mismatch '2' '1' (by decide) (by decide) (by decide) _ _
  have hB : ∀ f, mt f (b2b ++ [Tok.starG sepClass, Tok.plusG isNl, Tok.plusL anyCh 1,
      Tok.alt [[Tok.lit "\n\n---".data], [Tok.lit "\n\nNote:".data], [Tok.endA]]])
      ("BLOCK 1 - PHI REPLACEMENT LOG\n".data ++ R) = none := fun f =>
    mt_lit_none f _ (stripCI_head_fail _ _ (by decide))
  intro f
  exact mt_alt_none2 b2a b2b _ _ hA hB f

theorem doc_fail_H2_0 (B : List Char) :
    ∀ f, mt f docPattern ("BLOCK 2 - DE-IDENTIFIED DOCUMENT\n".data ++ B) = none := by
  have hA : ∀ f, mt f (b2a ++ [Tok.starG sepClass, Tok.plusG isNl, Tok.plusL anyCh 1,
      Tok.alt [[Tok.lit "\n\n---".data], [Tok.lit "\n\nNote:".data], [Tok.endA]]])
      ("BLOCK 2 - DE-IDENTIFIED DOCUMENT\n".data ++ B) = none := by
    intro f
    refine mt_lit_fail_then "BLOCK".data _
      ("BLOCK 2 - DE-IDENTIFIED DOCUMENT\n".data ++ B)
      (" 2 - DE-IDENTIFIED DOCUMENT\n".data ++ B) rfl ?_ f
    exact sg_litd_sep_nl_fail '2' (by decide) (by decide) 'D' (by decide) _ _
  have hB : ∀ f, mt f (b2b ++ [Tok.starG sepClass, Tok.plusG isNl, Tok.plusL anyCh 1,
      Tok.alt [[Tok.lit "\n\n---".data], [Tok.lit "\n\nNote:".data], [Tok.endA]]])
      ("BLOCK 2 - DE-IDENTIFIED DOCUMENT\n".data ++ B) = none := fun f =>
    mt_lit_none f _ (stripCI_head_fail _ _ (by decide))
  intro f
  exact mt_alt_none2 b2a b2b _ _ hA hB f

theorem log_fail_H1_0 (R : List Char) :
    ∀ f, mt f logPattern ("BLOCK 1 - PHI REPLACEMENT LOG\n".data ++ R) = none := by
  have hA : ∀ f, mt f (b1a ++ [Tok.starG sepClass, Tok.plusG isNl, Tok.starL anyCh 1 [],
      Tok.look markerB2]) ("BLOCK 1 - PHI REPLACEMENT LOG\n".data ++ R) = none := by
    intro f
    refine mt_lit_fail_then "BLOCK".data _
      ("BLOCK 1 - PHI REPLACEMENT LOG\n".data ++ R)
      (" 1 - PHI REPLACEMENT LOG\n".data ++ R) rfl ?_ f
    exact sg_litd_sep_nl_fail '1' (by decide) (by decide) 'P' (by decide) _ _
  have hB : ∀ f, mt f (b1b ++ [Tok.starG sepClass, Tok.plusG isNl, Tok.starL anyCh 1 [],
      Tok.look markerB2]) ("BLOCK 1 - PHI REPLACEMENT LOG\n".data ++ R) = none := fun f =>
    mt_lit_none f _ (stripCI_head_fail _ _ (by decide))
  intro f
  exact mt_alt_none2 b1a b1b _ _ hA hB f

theorem doc_match_DE (B : List Char) (hwB : wfBody B = true) :
    ∀ f, B.length + 40 ≤ f →
      mt f docPattern ("DE-IDENTIFIED DOCUMENT\n".data ++ B) = some ([(1, B)], []) := by
  obtain ⟨hbne, hbstar, hbhead, hblast, hocc1, hocc2⟩ := wfBody_parts B hwB
  obtain ⟨b0, B', rfl⟩ := List.exists_cons_of_ne_nil hbne
  have hb0 : sepClass b0 = false := by simpa using hbhead
  have hb0nl : isNl b0 = false := isNl_false_of_sepClass_false b0 hb0
  have halt3 : ∀ f, 3 ≤ f → mt f [Tok.alt [[Tok.lit "\n\n---".data],
      [Tok.lit "\n\nNote:".data], [Tok.endA]]] ([] : List Char) =
      some (([], []) : Caps × List Char) :=
    mt_alt_step3 _ _ _ [] [] ([], []) 2
      (fun f => mt_lit_none f _ rfl)
      (fun f => mt_lit_none f _ rfl)
      (mt_endA_nil_step [] ([], []) 1 (mt_nil_step []))
  have hnos1 : ∀ i, i < (b0 :: B').length →
      stripCI "\n\n---".data ((b0 :: B').drop i) = none := by
    intro i hi
    by_contra hne2
    have hc := ciOccurs_of_stripCI _ _ i (Option.ne_none_iff_isSome.mp hne2)
    rw [hc] at hocc1
    cases hocc1
  have hnos2 : ∀ i, i < (b0 :: B').length →
      stripCI "\n\nNote:".data ((b0 :: B').drop i) = none := by
    intro i hi
    by_contra hne2
    have hc := ciOccurs_of_stripCI _ _ i (Option.ne_none_iff_isSome.mp hne2)
    rw [hc] at hocc2
    cases hocc2
  have hgfail : ∀ (i f' : Nat), i < (b0 :: B').length →
      mt f' [Tok.alt [[Tok.lit "\n\n---".data], [Tok.lit "\n\nNote:".data], [Tok.endA]]]
        ((b0 :: B').drop i ++ []) = none := by
    intro i f' hi
    rw [List.append_nil]
    cases hd : (b0 :: B').drop i with
    | nil =>
      have hlen := congrArg List.length hd
      simp [List.length_drop] at hlen hi
      omega
    | cons x xs =>
      have h1 := hnos1 i hi
      have h2 := hnos2 i hi
      rw [hd] at h1 h2
      exact mt_alt_none3 _ _ _ [] (x :: xs)
        (fun f => mt_lit_none f _ h1)
        (fun f => mt_lit_none f _ h2)
        (mt_endA_cons_none [] x xs) f'
  have hplus : ∀ f, (b0 :: B').length + 4 ≤ f →
      mt f (Tok.plusL anyCh 1 :: [Tok.alt [[Tok.lit "\n\n---".data],
        [Tok.lit "\n\nNote:".data], [Tok.endA]]]) (b0 :: B') =
      some ([(1, b0 :: B')], []) := by
    intro f hf
    have hres := plusL_capture anyCh 1 _ [] [] [] 3 halt3 (b0 :: B') f (by simp)
      (fun c _ => rfl) hgfail (by omega)
    rwa [List.append_nil] at hres
  have hpg := mt_plusG_one_step isNl _ '\n' b0 B' _ ((b0 :: B').length + 4)
    (by decide) hb0nl hplus
  have hsgfail : ∀ f, mt f (Tok.starG sepClass :: Tok.plusG isNl :: Tok.plusL anyCh 1 ::
      [Tok.alt [[Tok.lit "\n\n---".data], [Tok.lit "\n\nNote:".data], [Tok.endA]]])
      (b0 :: B') = none := by
    intro f
    apply starG_plusG_fail_all
    intro j hj
    by_cases h1 : 1 ≤ j
    · exfalso
      have h := all_take_mono sepClass _ j 1 h1 hj
      have ht : ((b0 :: B').take 1) = [b0] := rfl
      rw [ht] at h
      simp [hb0] at h
    · have hj0 : j = 0 := by omega
      subst hj0
      show ((b0 :: B').head?.all fun c => !(isNl c)) = true
      simp [hb0nl]
  have hsg := mt_starG_back_step sepClass _ '\n' (b0 :: B') _ ((b0 :: B').length + 6)
    (by decide) hsgfail hpg
  have hdoc2 := mt_lit_step "DOCUMENT".data _ ("DOCUMENT\n".data ++ (b0 :: B')) _ _
    ((b0 :: B').length + 7) rfl hsg
  have hpg2 := mt_plusG_one_step pySpace _ ' ' 'D' _ _ ((b0 :: B').length + 8)
    (by decide) (by decide) hdoc2
  have hid := mt_lit_step "IDENTIFIED".data _
    ("IDENTIFIED DOCUMENT\n".data ++ (b0 :: B')) _ _ ((b0 :: B').length + 10) rfl hpg2
  have hdash := mt_starG_one_step dashSpace _ '-' 'I' _ _ ((b0 :: B').length + 11)
    (by decide) (by decide) hid
  have hde := mt_lit_step "DE".data _ ("DE-IDENTIFIED DOCUMENT\n".data ++ (b0 :: B')) _ _
    ((b0 :: B').length + 13) rfl hdash
  intro f hf
  refine mt_alt_step2 b2a b2b _ _ _ ((b0 :: B').length + 14) ?_ ?_ f (by omega)
  · intro f'
    exact mt_lit_none f' _ (stripCI_head_fail _ _ (by decide))
  · exact hde

theorem entries_no_marker (es : List PHIReplacement) (hwf : ∀ e ∈ es, wfEntry e = true) :
    (∀ (t : List Char) (i : Nat), i < (entriesText es).length →
      (stripCI "BLOCK".data ((entriesText es).drop i ++ t)).isSome = false) ∧
    (∀ (t : List Char) (i : Nat), i < (entriesText es).length →
      (stripCI "DE".data ((entriesText es).drop i ++ t)).isSome = false) := by
  constructor
  · refine entriesText_stripCI_fail 'B' "LOCK".data es ?_
    intro e he
    obtain ⟨hc, ho, hr, hk⟩ := wfEntry_parts e (hwf e he)
    exact renderEntry_stripCI_fail 'B' "LOCK".data e (by decide) (by decide) (by decide)
      (by decide) (by decide)
      (wfField_ban _ hc "BLOCK" (by simp)) (wfField_ban _ ho "BLOCK" (by simp))
      (wfField_ban _ hr "BLOCK" (by simp)) (wfField_ban _ hk "BLOCK" (by simp))
      (by decide) (by decide)
  · refine entriesText_stripCI_fail 'D' "E".data es ?_
    intro e he
    obtain ⟨hc, ho, hr, hk⟩ := wfEntry_parts e (hwf e he)
    exact renderEntry_stripCI_fail 'D' "E".data e (by decide) (by decide) (by decide)
      (by decide) (by decide)
      (wfField_ban _ hc "DE" (by simp)) (wfField_ban _ ho "DE" (by simp))
      (wfField_ban _ hr "DE" (by simp)) (wfField_ban _ hk "DE" (by simp))
      (by decide) (by decide)

theorem log_match (es : List PHIReplacement) (B : List Char)
    (hwf : ∀ e ∈ es, wfEntry e = true) :
    ∀ f, (entriesText es).length + 60 ≤ f →
      mt f logPattern ("PHI REPLACEMENT LOG\n".data ++
        (entriesText es ++ ("BLOCK 2 - DE-IDENTIFIED DOCUMENT\n".data ++ B))) =
        some ([(1, entriesText es)], "BLOCK 2 - DE-IDENTIFIED DOCUMENT\n".data ++ B) := by
  have hb2a : ∀ f, 5 ≤ f → mt f b2a ("BLOCK 2 - DE-IDENTIFIED DOCUMENT\n".data ++ B) =
      some (([], " - DE-IDENTIFIED DOCUMENT\n".data ++ B) : Caps × List Char) := by
    have h2 := mt_lit_step "2".data []
      ("2 - DE-IDENTIFIED DOCUMENT\n".data ++ B)
      (" - DE-IDENTIFIED DOCUMENT\n".data ++ B) _ 1 rfl
      (mt_nil_step (" - DE-IDENTIFIED DOCUMENT\n".data ++ B))
    have hsg := mt_starG_one_step pySpace _ ' ' '2' _ _ 2 (by decide) (by decide) h2
    exact mt_lit_step "BLOCK".data _
      ("BLOCK 2 - DE-IDENTIFIED DOCUMENT\n".data ++ B) _ _ 4 rfl hsg
  have hlook : ∀ f, 7 ≤ f → mt f [Tok.look markerB2]
      ("BLOCK 2 - DE-IDENTIFIED DOCUMENT\n".data ++ B) =
      some (([], "BLOCK 2 - DE-IDENTIFIED DOCUMENT\n".data ++ B) : Caps × List Char) :=
    mt_look_step_first b2a [b2b] [] _ _ _ 5 1 hb2a (mt_nil_step _)
  obtain ⟨hfB, hfD⟩ := entries_no_marker es hwf
  have hfail : ∀ (i f' : Nat), i < (entriesText es).length →
      mt f' [Tok.look markerB2]
        ((entriesText es).drop i ++ ("BLOCK 2 - DE-IDENTIFIED DOCUMENT\n".data ++ B)) =
        none := fun i f' hi =>
    lookB2_fail f' [] _ (hfB _ i hi) (hfD _ i hi)
  have hstarL : ∀ f, (entriesText es).length + 8 ≤ f →
      mt f (Tok.starL anyCh 1 [] :: [Tok.look markerB2])
        (entriesText es ++ ("BLOCK 2 - DE-IDENTIFIED DOCUMENT\n".data ++ B)) =
        some ([(1, entriesText es)], "BLOCK 2 - DE-IDENTIFIED DOCUMENT\n".data ++ B) := by
    intro f hf
    have hres := starL_capture anyCh 1 [Tok.look markerB2]
      ("BLOCK 2 - DE-IDENTIFIED DOCUMENT\n".data ++ B) []
      ("BLOCK 2 - DE-IDENTIFIED DOCUMENT\n".data ++ B) 7 hlook
      (entriesText es) [] f (fun c _ => rfl) hfail (by omega)
    simpa using hres
  obtain ⟨x, X, hxeq, hxsep⟩ : ∃ x X,
      entriesText es ++ ("BLOCK 2 - DE-IDENTIFIED DOCUMENT\n".data ++ B) = x :: X ∧
        sepClass x = false := by
    cases es with
    | nil =>
      exact ⟨'B', "LOCK 2 - DE-IDENTIFIED DOCUMENT\n".data ++ B, rfl, by decide⟩
    | cons e1 es1 =>
      obtain ⟨X', rest', hsh, _⟩ := renderEntry_append_shape e1
        (entriesText es1 ++ ("BLOCK 2 - DE-IDENTIFIED DOCUMENT\n".data ++ B))
      refine ⟨'C', X', ?_, by decide⟩
      show (renderEntry e1 ++ entriesText es1) ++
        ("BLOCK 2 - DE-IDENTIFIED DOCUMENT\n".data ++ B) = 'C' :: X'
      rw [List.append_assoc]
      exact hsh
  have hstarL2 : ∀ f, (entriesText es).length + 8 ≤ f →
      mt f (Tok.starL anyCh 1 [] :: [Tok.look markerB2]) (x :: X) =
        some ([(1, entriesText es)], "BLOCK 2 - DE-IDENTIFIED DOCUMENT\n".data ++ B) := by
    rw [← hxeq]
    exact hstarL
  have hpg := mt_plusG_one_step isNl _ '\n' x X _ ((entriesText es).length + 8)
    (by decide) (isNl_false_of_sepClass_false x hxsep) hstarL2
  have hpg2 : ∀ f, (entriesText es).length + 10 ≤ f →
      mt f (Tok.plusG isNl :: Tok.starL anyCh 1 [] :: [Tok.look markerB2])
        ('\n' :: (entriesText es ++ ("BLOCK 2 - DE-IDENTIFIED DOCUMENT\n".data ++ B))) =
        some ([(1, entriesText es)], "BLOCK 2 - DE-IDENTIFIED DOCUMENT\n".data ++ B) := by
    rw [hxeq]
    exact hpg
  have hsgfail : ∀ f, mt f (Tok.starG sepClass :: Tok.plusG isNl :: Tok.starL anyCh 1 [] ::
      [Tok.look markerB2])
      (entriesText es ++ ("BLOCK 2 - DE-IDENTIFIED DOCUMENT\n".data ++ B)) = none := by
    intro f
    rw [hxeq]
    apply starG_plusG_fail_all
    intro j hj
    by_cases h1 : 1 ≤ j
    · exfalso
      have h := all_take_mono sepClass _ j 1 h1 hj
      have ht : ((x :: X).take 1) = [x] := rfl
      rw [ht] at h
      simp [hxsep] at h
    · have hj0 : j = 0 := by omega
      subst hj0
      show ((x :: X).head?.all fun c => !(isNl c)) = true
      simp [isNl_false_of_sepClass_false x hxsep]
  have hsg := mt_starG_back_step sepClass _ '\n' _ _ ((entriesText es).length + 10)
    (by decide) hsgfail hpg2
  have hlg := mt_lit_step "LOG".data _
    ("LOG\n".data ++ (entriesText es ++ ("BLOCK 2 - DE-IDENTIFIED DOCUMENT\n".data ++ B)))
    _ _ ((entriesText es).length + 11) rfl hsg
  have hpgL := mt_plusG_one_step pySpace _ ' ' 'L' _ _ ((entriesText es).length + 12)
    (by decide) (by decide) hlg
  have hrep := mt_lit_step "REPLACEMENT".data _
    ("REPLACEMENT LOG\n".data ++
      (entriesText es ++ ("BLOCK 2 - DE-IDENTIFIED DOCUMENT\n".data ++ B)))
    _ _ ((entriesText es).length + 14) rfl hpgL
  have hpgR := mt_plusG_one_step pySpace _ ' ' 'R' _ _ ((entriesText es).length + 15)
    (by decide) (by decide) hrep
  have hphi := mt_lit_step "PHI".data _
    ("PHI REPLACEMENT LOG\n".data ++
      (entriesText es ++ ("BLOCK 2 - DE-IDENTIFIED DOCUMENT\n".data ++ B)))
    _ _ ((entriesText es).length + 17) rfl hpgR
  intro f hf
  refine mt_alt_step2 b1a b1b _ _ _ ((entriesText es).length + 18) ?_ ?_ f (by omega)
  · intro f'
    exact mt_lit_none f' _ (stripCI_head_fail _ _ (by decide))
  · exact hphi

theorem doc_search_full (es : List PHIReplacement) (B : List Char)
    (hwf : ∀ e ∈ es, wfEntry e = true) (hwB : wfBody B = true)
    (F : Nat) (hF : B.length + 40 ≤ F) :
    ∃ pre, searchAcc F docPattern []
      ("BLOCK 1 - PHI REPLACEMENT LOG\n".data ++ (entriesText es ++
        ("BLOCK 2 - DE-IDENTIFIED DOCUMENT\n".data ++ B))) =
      some (pre, [(1, B)], []) := by
  obtain ⟨hfB, hfD⟩ := entries_no_marker es hwf
  have hfail1 : ∀ i, i < ("BLOCK 1 - PHI REPLACEMENT LOG\n".data : List Char).length →
      mt F docPattern ("BLOCK 1 - PHI REPLACEMENT LOG\n".data.drop i ++
        (entriesText es ++ ("BLOCK 2 - ".data ++
          ("DE-IDENTIFIED DOCUMENT\n".data ++ B)))) = none := by
    intro i hi
    have h30 : ("BLOCK 1 - PHI REPLACEMENT LOG\n".data : List Char).length = 30 := rfl
    cases i with
    | zero => exact doc_fail_H1_0 _ F
    | succ i' =>
      refine markerB2_fail_of_stripCI F _ _ ?_ ?_
      · exact stripCI_fail_in_lit 'B' "LOCK".data "LOCK 1 - PHI REPLACEMENT LOG\n".data
          (by decide) i' _
          (by rw [h30] at hi
              have h29 : ("LOCK 1 - PHI REPLACEMENT LOG\n".data : List Char).length = 29 :=
                rfl
              omega)
      · exact stripCI_fail_in_lit 'D' "E".data "BLOCK 1 - PHI REPLACEMENT LOG\n".data
          (by decide) (i' + 1) _
          (by rw [h30] at hi
              rw [h30]
              omega)
  have hfail2 : ∀ i, i < (entriesText es).length →
      mt F docPattern ((entriesText es).drop i ++
        ("BLOCK 2 - ".data ++ ("DE-IDENTIFIED DOCUMENT\n".data ++ B))) = none :=
    fun i hi => markerB2_fail_of_stripCI F _ _ (hfB _ i hi) (hfD _ i hi)
  have hfail3 : ∀ i, i < ("BLOCK 2 - ".data : List Char).length →
      mt F docPattern ("BLOCK 2 - ".data.drop i ++
        ("DE-IDENTIFIED DOCUMENT\n".data ++ B)) = none := by
    intro i hi
    have h10 : ("BLOCK 2 - ".data : List Char).length = 10 := rfl
    cases i with
    | zero => exact doc_fail_H2_0 B F
    | succ i' =>
      refine markerB2_fail_of_stripCI F _ _ ?_ ?_
      · exact stripCI_fail_in_lit 'B' "LOCK".data "LOCK 2 - ".data (by decide) i' _
          (by rw [h10] at hi
              have h9 : ("LOCK 2 - ".data : List Char).length = 9 := rfl
              omega)
      · exact stripCI_fail_in_lit 'D' "E".data "BLOCK 2 - ".data (by decide) (i' + 1) _
          (by rw [h10] at hi
              rw [h10]
              omega)
  have hsplit : ("BLOCK 2 - DE-IDENTIFIED DOCUMENT\n".data : List Char) ++ B =
      "BLOCK 2 - ".data ++ ("DE-IDENTIFIED DOCUMENT\n".data ++ B) := rfl
  rw [hsplit]
  rw [searchAcc_append_none F docPattern "BLOCK 1 - PHI REPLACEMENT LOG\n".data _ []
    hfail1]
  rw [searchAcc_append_none F docPattern (entriesText es) _ _ hfail2]
  rw [searchAcc_append_none F docPattern "BLOCK 2 - ".data _ _ hfail3]
  rw [searchAcc_found F docPattern _ _ [(1, B)] [] (doc_match_DE B hwB F hF)]
  exact ⟨_, rfl⟩

theorem log_search_full (es : List PHIReplacement) (B : List Char)
    (hwf : ∀ e ∈ es, wfEntry e = true)
    (F : Nat) (hF : (entriesText es).length + 60 ≤ F) :
    ∃ pre, searchAcc F logPattern []
      ("BLOCK 1 - PHI REPLACEMENT LOG\n".data ++ (entriesText es ++
        ("BLOCK 2 - DE-IDENTIFIED DOCUMENT\n".data ++ B))) =
      some (pre, [(1, entriesText es)],
        "BLOCK 2 - DE-IDENTIFIED DOCUMENT\n".data ++ B) := by
  have hfail1 : ∀ i, i < ("BLOCK 1 - ".data : List Char).length →
      mt F logPattern ("BLOCK 1 - ".data.drop i ++
        ("PHI REPLACEMENT LOG\n".data ++ (entriesText es ++
          ("BLOCK 2 - DE-IDENTIFIED DOCUMENT\n".data ++ B)))) = none := by
    intro i hi
    have h10 : ("BLOCK 1 - ".data : List Char).length = 10 := rfl
    cases i with
    | zero => exact log_fail_H1_0 _ F
    | succ i' =>
      refine markerB1_fail_of_stripCI F _ _ ?_ ?_
      · exact stripCI_fail_in_lit 'B' "LOCK".data "LOCK 1 - ".data (by decide) i' _
          (by rw [h10] at hi
              have h9 : ("LOCK 1 - ".data : List Char).length = 9 := rfl
              omega)
      · exact stripCI_fail_in_lit 'P' "HI".data "BLOCK 1 - ".data (by decide) (i' + 1) _
          (by rw [h10] at hi
              rw [h10]
              omega)
  have hsplit : ("BLOCK 1 - PHI REPLACEMENT LOG\n".data : List Char) ++
      (entriesText es ++ ("BLOCK 2 - DE-IDENTIFIED DOCUMENT\n".data ++ B)) =
      "BLOCK 1 - ".data ++ ("PHI REPLACEMENT LOG\n".data ++ (entriesText es ++
        ("BLOCK 2 - DE-IDENTIFIED DOCUMENT\n".data ++ B))) := by
    have h0 : ("BLOCK 1 - PHI REPLACEMENT LOG\n".data : List Char) =
        "BLOCK 1 - ".data ++ "PHI REPLACEMENT LOG\n".data := rfl
    rw [h0, List.append_assoc]
  rw [hsplit]
  rw [searchAcc_append_none F logPattern "BLOCK 1 - ".data _ [] hfail1]
  rw [searchAcc_found F logPattern _ _ [(1, entriesText es)] _ (log_match es B hwf F hF)]
  exact ⟨_, rfl⟩

theorem no_star_renderEntry (e : PHIReplacement) (hwf : wfEntry e = true) :
    ¬ '*' ∈ renderEntry e := by
  obtain ⟨hc, ho, hr, hk⟩ := wfEntry_parts e hwf
  have hstar : ∀ s, wfField s = true → ¬ '*' ∈ s := by
    intro s hs hmem
    obtain ⟨_, hall, _, _, _⟩ := wfField_parts s hs
    exact (hall '*' hmem).2 rfl
  intro hmem
  simp only [renderEntry, List.append_assoc] at hmem
  rcases List.mem_append.mp hmem with h | h
  · exact absurd h (by decide)
  rcases List.mem_append.mp h with h | h
  · exact hstar _ hc h
  rcases List.mem_append.mp h with h | h
  · exact absurd h (by decide)
  rcases List.mem_append.mp h with h | h
  · exact hstar _ ho h
  rcases List.mem_append.mp h with h | h
  · exact absurd h (by decide)
  rcases List.mem_append.mp h with h | h
  · exact hstar _ hr h
  rcases List.mem_append.mp h with h | h
  · exact absurd h (by decide)
  rcases List.mem_append.mp h with h | h
  · exact hstar _ hk h
  · exact absurd h (by decide)

theorem no_star_entries (es : List PHIReplacement) (hwf : ∀ e ∈ es, wfEntry e = true) :
    ¬ '*' ∈ entriesText es := by
  induction es with
  | nil => intro h; simp [entriesText] at h
  | cons e es' ih =>
    intro h
    rcases List.mem_append.mp h with h1 | h1
    · exact no_star_renderEntry e (hwf e (List.mem_cons_self e es')) h1
    · exact ih (fun x hx => hwf x (List.mem_cons_of_mem e hx)) h1

theorem entriesText_length_ge (es : List PHIReplacement) :
    es.length ≤ (entriesText es).length := by
  induction es with
  | nil => simp [entriesText]
  | cons e es' ih =>
    have hre := renderEntry_length e
    simp only [entriesText, List.length_append, List.length_cons]
    omega

/-- Shared helper for C3 and C4: when no position of the cleaned
response begins a BLOCK 2 / DE-IDENTIFIED DOCUMENT marker, the
parser returns the empty log and the untouched raw response. -/
theorem parse_no_marker (response : String)
    (h : noB2Marker (cleanData response.data) = true) :
    parse_llm_response response = ([], response) := by
  have hs := noB2Marker_suffix _ h
  have hdoc : ∀ (r : List Tok) (s' : List Char), s' <:+ cleanData response.data →
      mt (bigFuel (cleanData response.data)) (Tok.alt markerB2 :: r) s' = none := by
    intro r s' hsuf
    by_contra hne
    have hiss := Option.ne_none_iff_isSome.mp hne
    rcases markerAlt_inv _ _ _ hiss with hb | hb
    · rw [(hs s' hsuf).1] at hb; cases hb
    · rw [(hs s' hsuf).2] at hb; cases hb
  have hlog : ∀ s' : List Char, s' <:+ cleanData response.data →
      mt (bigFuel (cleanData response.data)) logPattern s' = none := by
    intro s' hsuf
    by_contra hne
    have hiss := Option.ne_none_iff_isSome.mp hne
    have hshape : logPattern =
        [Tok.alt [b1a, b1b], Tok.starG sepClass, Tok.plusG isNl, Tok.starL anyCh 1 []] ++
          [Tok.look markerB2] := rfl
    rw [hshape] at hiss
    obtain ⟨s'', hsuf2, f', _, b, hb, hbs⟩ := mt_look_reach _ _ _ _ hiss
    have hb' : b = b2a ∨ b = b2b := by simpa [markerB2] using hb
    rcases hb' with hb' | hb' <;> subst hb'
    · rw [← List.append_nil b2a] at hbs
      have hB := hasB2At_of_mt _ _ _ hbs
      rw [(hs s'' (hsuf2.trans hsuf)).1] at hB; cases hB
    · rw [← List.append_nil b2b] at hbs
      have hD := hasDEAt_of_mt _ _ _ hbs
      rw [(hs s'' (hsuf2.trans hsuf)).2] at hD; cases hD
  have hsearch_doc : searchAcc (bigFuel (cleanData response.data)) docPattern []
      (cleanData response.data) = none := by
    refine searchAcc_none _ _ _ _ (fun s' hsuf => ?_)
    have hshape : docPattern = Tok.alt markerB2 ::
        [Tok.starG sepClass, Tok.plusG isNl, Tok.plusL anyCh 1,
          Tok.alt [[Tok.lit "\n\n---".data], [Tok.lit "\n\nNote:".data], [Tok.endA]]] := rfl
    rw [hshape]
    exact hdoc _ s' hsuf
  have hsearch_split : searchAcc (bigFuel (cleanData response.data)) splitPattern []
      (cleanData response.data) = none := by
    refine searchAcc_none _ _ _ _ (fun s' hsuf => ?_)
    have hshape : splitPattern =
        Tok.alt markerB2 :: [Tok.starG sepClass, Tok.plusG isNl] := rfl
    rw [hshape]
    exact hdoc _ s' hsuf
  have hsearch_log : searchAcc (bigFuel (cleanData response.data)) logPattern []
      (cleanData response.data) = none :=
    searchAcc_none _ _ _ _ (fun s' hsuf => hlog s' hsuf)
  simp only [parse_llm_response, pySplit, hsearch_doc, hsearch_log,
    splitGo_none _ _ _ _ hsearch_split, List.length_cons, List.length_nil]
  norm_num

/-! Claim theorems with elementary proofs. -/

/-- C1: the response parser is total — for every string input it
returns a (replacement_log, anonymized_text) pair.  The embedding
`parse_llm_response` is a total Lean function built from total
search/split/match combinators, which mirrors that the Python body
raises no exception on any input (`re.search`, `re.split`,
`re.finditer` and `str.replace/strip` are total on `str`). -/
theorem claim1_parse_total (response : String) :
    ∃ log anonymized, parse_llm_response response = (log, anonymized) :=
  ⟨_, _, rfl⟩

/-- C2: round-trip.  For every synthetic response made of N well-formed
four-field log entries (Category / Original token / Replacement /
Consistency key) between correctly labeled BLOCK 1 and BLOCK 2 markers
and a well-formed document body, `parse_llm_response` returns a
replacement log with exactly those N entries, each field matching the
source text exactly, and an anonymized_text equal to the exact text
following the BLOCK 2 marker line. -/
theorem claim2_round_trip (es : List PHIReplacement) (body : List Char)
    (hwf : ∀ e ∈ es, wfEntry e = true) (hbody : wfBody body = true) :
    parse_llm_response (renderResponse es body) = (es, String.mk body) := by
  obtain ⟨hbne, hbstar, hbhead, hblast, hocc1, hocc2⟩ := wfBody_parts body hbody
  have hdata : (renderResponse es body).data =
      "BLOCK 1 - PHI REPLACEMENT LOG\n".data ++ (entriesText es ++
        ("BLOCK 2 - DE-IDENTIFIED DOCUMENT\n".data ++ body)) := by
    have h0 : (renderResponse es body).data =
        "BLOCK 1 - PHI REPLACEMENT LOG\n".data ++ entriesText es ++
          "BLOCK 2 - DE-IDENTIFIED DOCUMENT\n".data ++ body := rfl
    rw [h0]
    simp [List.append_assoc]
  have hstar : ¬ '*' ∈ (renderResponse es body).data := by
    rw [hdata]
    intro hmem
    rcases List.mem_append.mp hmem with h | h
    · exact absurd h (by decide)
    rcases List.mem_append.mp h with h | h
    · exact no_star_entries es hwf h
    rcases List.mem_append.mp h with h | h
    · exact absurd h (by decide)
    · exact hbstar h
  have hclean : cleanData (renderResponse es body).data = (renderResponse es body).data :=
    cleanData_no_star _ hstar
  have hbheadPy : body.head?.all (fun c => !(pySpace c)) = true := by
    cases hh : body.head? with
    | none => rfl
    | some c =>
      rw [hh] at hbhead
      have hcs : sepClass c = false := by simpa using hbhead
      simp [pySpace_false_of_sepClass_false c hcs]
  have hF1 : body.length + 40 ≤
      bigFuel ("BLOCK 1 - PHI REPLACEMENT LOG\n".data ++ (entriesText es ++
        ("BLOCK 2 - DE-IDENTIFIED DOCUMENT\n".data ++ body))) := by
    simp only [bigFuel, List.length_append]
    omega
  have hF2 : (entriesText es).length + 60 ≤
      bigFuel ("BLOCK 1 - PHI REPLACEMENT LOG\n".data ++ (entriesText es ++
        ("BLOCK 2 - DE-IDENTIFIED DOCUMENT\n".data ++ body))) := by
    simp only [bigFuel, List.length_append]
    omega
  obtain ⟨pre1, hdoc⟩ := doc_search_full es body hwf hbody _ hF1
  obtain ⟨pre2, hlog⟩ := log_search_full es body hwf _ hF2
  have hfa := (findAllGo_entries es hwf ((entriesText es).length + 400)
    ((entriesText es).length + 1) (by omega)
    (by have := entriesText_length_ge es; omega)).1
  have hdoc2 : searchAcc (bigFuel (renderResponse es body).data) docPattern []
      (renderResponse es body).data = some (pre1, [(1, body)], []) := by
    rw [hdata]
    exact hdoc
  have hlog2 : searchAcc (bigFuel (renderResponse es body).data) logPattern []
      (renderResponse es body).data =
      some (pre2, [(1, entriesText es)],
        "BLOCK 2 - DE-IDENTIFIED DOCUMENT\n".data ++ body) := by
    rw [hdata]
    exact hlog
  simp only [parse_llm_response]
  rw [hclean, hdoc2, hlog2]
  show ((findAll entryPattern (capGet [(1, entriesText es)] 1)).map mkEntry,
      String.mk (pyStrip (capGet [(1, body)] 1))) = (es, String.mk body)
  rw [show capGet [(1, entriesText es)] 1 = entriesText es from rfl,
    show capGet [(1, body)] 1 = body from rfl,
    show findAll entryPattern (entriesText es) =
      findAllGo ((entriesText es).length + 400) entryPattern
        ((entriesText es).length + 1) (entriesText es) from rfl,
    hfa, pyStrip_eq_self body hbheadPy hblast]

set_option maxRecDepth 100000 in
/-- Witness for C2 at the specification's scenario: one well-formed
entry and the document body from the example raw response. -/
theorem claim2_round_trip_witness :
    renderResponse
        [PHIReplacement.mk "Name" "Patient name" "Jordan Lee" "[PATIENT_NAME]"]
        "Patient [PATIENT_NAME] was seen today.".data =
      "BLOCK 1 - PHI REPLACEMENT LOG\nCategory: Name Original token: Patient name Replacement: Jordan Lee Consistency key: [PATIENT_NAME]\nBLOCK 2 - DE-IDENTIFIED DOCUMENT\nPatient [PATIENT_NAME] was seen today." ∧
    (∀ e ∈ [PHIReplacement.mk "Name" "Patient name" "Jordan Lee" "[PATIENT_NAME]"],
      wfEntry e = true) ∧
    wfBody "Patient [PATIENT_NAME] was seen today.".data = true ∧
    parse_llm_response (renderResponse
        [PHIReplacement.mk "Name" "Patient name" "Jordan Lee" "[PATIENT_NAME]"]
        "Patient [PATIENT_NAME] was seen today.".data) =
      ([PHIReplacement.mk "Name" "Patient name" "Jordan Lee" "[PATIENT_NAME]"],
        String.mk "Patient [PATIENT_NAME] was seen today.".data) :=
  ⟨by decide, by decide, by decide,
    claim2_round_trip _ _ (by decide) (by decide)⟩

/-- C3: whenever no position of the cleaned raw response begins a
recognizable BLOCK 2 / de-identified-document marker (the
alternation `BLOCK\s*2` / `DE[-\s]*IDENTIFIED\s+DOCUMENT`), the
parser returns an empty replacement log and an anonymized text equal
to the full raw response. -/
theorem claim3_no_marker_full_response (response : String)
    (h : noB2Marker (cleanData response.data) = true) :
    parse_llm_response response = ([], response) :=
  parse_no_marker response h

/-- C3 witness: a markerless response is returned untouched with an
empty log. -/
theorem claim3_no_marker_full_response_witness :
    noB2Marker (cleanData "Just some text.\nNothing here.".data) = true ∧
    parse_llm_response "Just some text.\nNothing here." =
      ([], "Just some text.\nNothing here.") :=
  ⟨by decide, claim3_no_marker_full_response _ (by decide)⟩

/-- C4 counterexample: the raw response `"BLOCK 2\n"` is non-empty,
yet `parse_llm_response` returns an empty `anonymized_text`: the
document pattern itself fails (its capture group needs a character),
but the split fallback matches the whole string as a separator,
leaving an empty last part whose strip is empty. -/
theorem claim4_counterexample :
    ("BLOCK 2\n" : String) ≠ "" ∧ (parse_llm_response "BLOCK 2\n").2 = "" := by
  exact ⟨by decide, by rfl⟩

/-- C4 amended: the anonymized text is non-empty for every non-empty
raw response in which the parser finds no BLOCK 2 /
de-identified-document marker (it is then the full raw response);
when a marker is present the anonymized text can be empty. -/
theorem claim4_anonymized_nonempty_amended (response : String)
    (hne : response ≠ "")
    (h : noB2Marker (cleanData response.data) = true) :
    (parse_llm_response response).2 ≠ "" := by
  rw [parse_no_marker response h]
  exact hne

/-- C4 amended witness: a concrete markerless non-empty response
yields a non-empty anonymized text. -/
theorem claim4_anonymized_nonempty_amended_witness :
    ("Hello world" : String) ≠ "" ∧
    noB2Marker (cleanData "Hello world".data) = true ∧
    (parse_llm_response "Hello world").2 ≠ "" :=
  ⟨by decide, by decide,
    claim4_anonymized_nonempty_amended "Hello world" (by decide) (by decide)⟩

/-- C5: the OCR-need decision of `parse_pdf`.  A forced OCR flag
always selects the OCR path; otherwise the path is the pure
heuristic: average stripped native-text length over the first
`min 3 pageCount` pages below 100 selects OCR, at least 100 selects
native extraction. -/
theorem claim5_ocr_decision (pages : List String) (force : Bool) :
    parse_pdf_used_ocr pages true = true ∧
    (avgNativeLen pages < 100 → parse_pdf_used_ocr pages force = true) ∧
    (100 ≤ avgNativeLen pages → parse_pdf_used_ocr pages false = false) := by
  have hdet : detect_needs_ocr pages = decide (avgNativeLen pages < 100) := rfl
  refine ⟨by simp [parse_pdf_used_ocr], ?_, ?_⟩
  · intro h
    simp [parse_pdf_used_ocr, hdet, h]
  · intro h
    simp [parse_pdf_used_ocr, hdet, not_lt.mpr h]

/-- Unfolded form of `avgNativeLen` when at least one page is
inspected. -/
theorem avgNativeLen_pos (pages : List String) (h : 0 < min 3 pages.length) :
    avgNativeLen pages =
      ((((pages.take (min 3 pages.length)).map (fun t => (pyStrip t.data).length)).sum : ℚ) /
        ((min 3 pages.length : Nat) : ℚ)) := by
  unfold avgNativeLen
  rw [if_pos h]

set_option maxRecDepth 40000 in
/-- C5 witness: a 2-page PDF with 500 characters of native text per
page averages 500 ≥ 100, so the native path is selected (the spec's
scenario). -/
theorem claim5_ocr_decision_witness :
    100 ≤ avgNativeLen [String.mk (List.replicate 500 'a'), String.mk (List.replicate 500 'a')] ∧
    parse_pdf_used_ocr [String.mk (List.replicate 500 'a'), String.mk (List.replicate 500 'a')]
      false = false := by
  have havg :
      avgNativeLen [String.mk (List.replicate 500 'a'), String.mk (List.replicate 500 'a')] =
        ((1000 : ℚ) / (2 : ℚ)) := by
    rw [avgNativeLen_pos _ (by decide)]
    have hsum :
        ((([String.mk (List.replicate 500 'a'), String.mk (List.replicate 500 'a')].take
          (min 3 ([String.mk (List.replicate 500 'a'),
            String.mk (List.replicate 500 'a')].length))).map
            (fun t => (pyStrip t.data).length)).sum) = 1000 := by decide
    rw [hsum]
    norm_num
  have h100 :
      (100 : ℚ) ≤
        avgNativeLen [String.mk (List.replicate 500 'a'), String.mk (List.replicate 500 'a')] := by
    rw [havg]
    norm_num
  exact ⟨h100, (claim5_ocr_decision _ false).2.2 h100⟩

/-- C6: provider selection.  `get_provider` depends only on the
lowercased name (case-insensitivity); any name outside
anthropic/openai/ollama/local fails with the invalid-provider
error; a hosted name with an unconfigured (empty) credential fails
with the not-configured error; and whenever selection fails, the
orchestrator fails with the same error for every provider oracle,
i.e. before any network call is attempted. -/
theorem claim6_provider_selection (st : Settings) (name : String) (text : String)
    (elapsed : ℚ) :
    (∀ other : String, pyLower other = pyLower name →
      get_provider st other = get_provider st name) ∧
    (pyLower name ∉ (["anthropic", "openai", "ollama", "local"] : List String) →
      get_provider st name = Except.error ("Invalid provider: " ++ pyLower name)) ∧
    (pyLower name = "anthropic" → st.ANTHROPIC_API_KEY = "" →
      get_provider st name = Except.error "Anthropic API key not configured") ∧
    (pyLower name = "openai" → st.OPENAI_API_KEY = "" →
      get_provider st name = Except.error "OpenAI API key not configured") ∧
    (∀ e, get_provider st name = Except.error e →
      ∀ callProvider : Provider → String → String × String,
        anonymize_text st text name callProvider elapsed = Except.error e) := by
  refine ⟨?_, ?_, ?_, ?_, ?_⟩
  · intro other h
    unfold get_provider
    rw [h]
  · intro h
    simp only [List.mem_cons, List.mem_singleton, not_or] at h
    obtain ⟨h1, h2, h3, h4⟩ := h
    unfold get_provider
    simp [h1, h2, h3, h4]
  · intro h hk
    unfold get_provider
    simp [h, hk]
  · intro h hk
    unfold get_provider
    by_cases ha : pyLower name = "anthropic"
    · rw [h] at ha
      exact absurd ha (by decide)
    · simp [ha, h, hk]
  · intro e he callProvider
    unfold anonymize_text
    rw [he]

/-- C6 witness: with no key configured, the mixed-case name
`"AnThRoPiC"` maps to the anthropic branch and fails at selection
time, and the orchestrator fails identically for a never-consulted
oracle. -/
theorem claim6_provider_selection_witness :
    get_provider {} "AnThRoPiC" = Except.error "Anthropic API key not configured" ∧
    anonymize_text {} "doc" "AnThRoPiC" (fun _ _ => ("never", "used")) 0 =
      Except.error "Anthropic API key not configured" := by
  refine ⟨(claim6_provider_selection {} "AnThRoPiC" "doc" 0).2.2.1 (by decide) (by decide), ?_⟩
  exact (claim6_provider_selection {} "AnThRoPiC" "doc" 0).2.2.2.2 _
    ((claim6_provider_selection {} "AnThRoPiC" "doc" 0).2.2.1 (by decide) (by decide)) _

/-- C7 counterexample: 204 No Content is a success-class HTTP
status (2xx), yet `OllamaProvider.anonymize` raises, because the
source tests `status_code != 200`, not "non-success". -/
theorem claim7_counterexample :
    ((200 : Nat) ≤ 204 ∧ (204 : Nat) < 300) ∧
    ollama_anonymize { status_code := 204, text := "", response_field := "" } =
      Except.error "Ollama API error: 204 - " := by
  exact ⟨by decide, by rfl⟩

/-- C7 amended: whenever the Ollama endpoint returns a status other
than 200 OK, the call fails with an error carrying the status code
and the response body; on a 200 status it returns the JSON
`response` field together with the provider id `"ollama"`. -/
theorem claim7_ollama_status (resp : OllamaHttpResponse) :
    (resp.status_code ≠ 200 →
      ollama_anonymize resp =
        Except.error ("Ollama API error: " ++ toString resp.status_code ++ " - " ++ resp.text)) ∧
    (resp.status_code = 200 →
      ollama_anonymize resp = Except.ok (resp.response_field, "ollama")) := by
  unfold ollama_anonymize
  constructor
  · intro h
    simp [h]
  · intro h
    simp [h]

/-- C7 witness: a 500 status yields the error carrying status and
body. -/
theorem claim7_ollama_status_witness :
    (500 : Nat) ≠ 200 ∧
    ollama_anonymize { status_code := 500, text := "boom", response_field := "" } =
      Except.error "Ollama API error: 500 - boom" :=
  ⟨by decide, (claim7_ollama_status _).1 (by decide)⟩

/-- C8 counterexample: on a document with a whitespace-only
paragraph, a padded single cell, and a blank single-cell row, the
extractor's output differs from the claim's literal reading: the
code drops the blank paragraph and the blank row and strips cell
text, while the claim keeps every non-empty paragraph and every row
verbatim. -/
theorem claim8_counterexample :
    parse_word { paragraphs := [" ", "A"], tables := [[[" x "], [""]]] } = "A\nx" ∧
    parse_word_claim { paragraphs := [" ", "A"], tables := [[[" x "], [""]]] } = " \nA\n x \n" ∧
    parse_word { paragraphs := [" ", "A"], tables := [[[" x "], [""]]] } ≠
      parse_word_claim { paragraphs := [" ", "A"], tables := [[[" x "], [""]]] } := by
  exact ⟨by rfl, by rfl, by decide⟩

/-- C8 amended: extraction returns the newline-join of the
paragraphs with non-blank text (kept unstripped) in document order,
followed after all paragraphs by each table's rows rendered as
pipe-joins of the whitespace-stripped cell texts, keeping only rows
whose rendering is non-blank, in table order. -/
theorem claim8_word_extraction_amended (doc : WordDocument) :
    parse_word doc = parse_word_amended doc := by
  have hmk : ∀ l : List Char, (decide (String.mk l ≠ "")) = (decide (l ≠ [])) := by
    intro l
    apply decide_eq_decide.mpr
    constructor
    · intro h he
      subst he
      exact h rfl
    · intro h he
      exact h (congrArg String.data he)
  unfold parse_word parse_word_amended
  simp only [hmk]

/-- C9: for a PDF with zero pages, the OCR-need check divides by
nothing (the guarded average is defined to be 0), the document is
classified as needing OCR, and the OCR path is selected. -/
theorem claim9_zero_pages_ocr :
    avgNativeLen [] = 0 ∧ detect_needs_ocr [] = true ∧ parse_pdf_used_ocr [] false = true := by
  exact ⟨by rfl, by rfl, by rfl⟩

/-- C10: every successful orchestrator result carries
`original_text = some text`, the exact input text that was handed to
the provider call. -/
theorem claim10_original_text (st : Settings) (text name : String)
    (callProvider : Provider → String → String × String) (elapsed : ℚ)
    (r : AnonymizationResult)
    (h : anonymize_text st text name callProvider elapsed = Except.ok r) :
    r.original_text = some text := by
  unfold anonymize_text at h
  cases hg : get_provider st name with
  | error e => rw [hg] at h; cases h
  | ok p =>
    rw [hg] at h
    simp only [Except.ok.injEq] at h
    rw [← h]

/-- C10 witness: a concrete ollama run echoes the input text in
`original_text`. -/
theorem claim10_original_text_witness :
    ({ replacement_log := [], anonymized_text := "resp", provider_used := "ollama",
       processing_time_seconds := 0, original_text := some "Patient X" } :
      AnonymizationResult).original_text = some "Patient X" :=
  claim10_original_text {} "Patient X" "ollama" (fun _ _ => ("resp", "ollama")) 0 _ (by rfl)

end PhiAnonymizer
